import Mathlib

/-! Video ingestion pipeline: `handler_upload_video.go`.

A shallow embedding of the upload handler of the repository and of the helpers
it calls.  Go strings are Lean strings, Go `(value, error)` results keep both
components, a run-time panic is a separate outcome, and every external
collaborator (metadata store, object store, signing service, the media tools,
the local filesystem) is either part of an explicit `World` that is threaded
through the handler or an entry of the per-request environment `Env`.
-/

namespace Tubely

/-! ## Results of Go calls -/

/-- Result of a Go function returning `(value, error)`: the value is present
also when the error is, exactly as in the source; `panic` is a run-time panic
(for instance an index out of range). -/
inductive Outcome (α : Type) where
  | ret (val : α) (err : Option String)
  | panic (msg : String)
  deriving DecidableEq

/-! ## Strings -/

/-- The function `strings.Split(s, sep)` for a one-character separator, on the
characters of `s`: the pieces between consecutive separators, in order. -/
def splitChars (sep : Char) : List Char → List (List Char)
  | [] => [[]]
  | c :: cs =>
    if c = sep then [] :: splitChars sep cs
    else
      match splitChars sep cs with
      | [] => [[c]]
      | p :: ps => (c :: p) :: ps

/-- The call `strings.Split(s, ",")` of `dbVideoToSignedVideo`. -/
def stringsSplitComma (s : String) : List String :=
  (splitChars ',' s.data).map String.mk

/-- The call `fmt.Sprintf("%s,%s", bucket, videoKey)` of `handlerUploadVideo`. -/
def encodeBucketKey (bucket videoKey : String) : String :=
  bucket ++ "," ++ videoKey

/-! ## The video record and the signing service -/

/-- Identifiers (`uuid.UUID`), compared only for equality. -/
abbrev UUID := Nat

/-- Modelled from the spec: the record type `database.Video` is declared in
`internal/database`, outside the source files at hand.  The fields are those of
the data model of the spec (`id`, `ownerID`, `locationDescriptor`,
`thumbnailURL`) under the names the handlers use. -/
structure Video where
  ID : UUID
  UserID : UUID
  ThumbnailURL : Option String
  VideoURL : Option String
  deriving DecidableEq

/-- The constant `time.Hour` as a `time.Duration`, in nanoseconds. -/
def timeHour : Nat := 3600 * 1000000000

/-- One request to the signing service: bucket, key and lifetime. -/
structure PresignCall where
  bucket : String
  key : String
  expire : Nat
  deriving DecidableEq

/-- The signing service `PresignGetObject`: a URL or an error text. -/
abbrev Presigner := PresignCall → Except String String

/-- The function `generatePresignedURL`: the URL of the signing service, or
its error wrapped by `fmt.Errorf("cannot process request: %w", err)`. -/
def generatePresignedURL (presign : Presigner) (bucket key : String)
    (expireTime : Nat) : Outcome String :=
  match presign ⟨bucket, key, expireTime⟩ with
  | .error e => .ret "" (some ("cannot process request: " ++ e))
  | .ok url => .ret url none

/-- The function `dbVideoToSignedVideo`, returning with its result the list of
requests it made to the signing service.  `splitString[0]` and `splitString[1]`
are Go slice index expressions: an index beyond the length panics. -/
def dbVideoToSignedVideo (presign : Presigner) (video : Video) :
    Outcome Video × List PresignCall :=
  match video.VideoURL with
  | none => (.ret video (some "no videos"), [])
  | some videoURL =>
    let splitString := stringsSplitComma videoURL
    match splitString with
    | [] => (.panic "index out of range [0] with length 0", [])
    | [_] => (.panic "index out of range [1] with length 1", [])
    | bucket :: key :: _ =>
      match generatePresignedURL presign bucket key timeHour with
      | .panic m => (.panic m, [⟨bucket, key, timeHour⟩])
      | .ret _ (some err) =>
        (.ret video (some ("cannot generate presignedURL: " ++ err)),
          [⟨bucket, key, timeHour⟩])
      | .ret signedURL none =>
        (.ret { video with VideoURL := some signedURL } none,
          [⟨bucket, key, timeHour⟩])

/-! ## Binary64 arithmetic

Go evaluates `float64(width) / float64(height)`, the subtraction and the
comparison in IEEE-754 binary64 with round-to-nearest, ties-to-even.  A finite
value is the rational number it denotes.  The sign of a zero is not
represented: the one division of the program has a divisor converted from an
integer, which is never the negative zero, and no other operation used here
tells the two zeros apart. -/

/-- Nearest integer, ties to the even one. -/
def roundHalfEven (x : ℚ) : ℤ :=
  let f := ⌊x⌋
  let d := x - f
  if d < 1 / 2 then f
  else if 1 / 2 < d then f + 1
  else if f % 2 = 0 then f else f + 1

/-- Exponent of the binade of `q` in binary64: `⌊log₂ |q|⌋`, and `-1022` for
the subnormal range (and for zero). -/
def binade (q : ℚ) : ℤ := max (Int.log 2 |q|) (-1022)

/-- Rounding of a rational to the binary64 grid (53 significant bits, least
exponent `-1022`), with the exponent unbounded above. -/
def roundQ (q : ℚ) : ℚ :=
  roundHalfEven (q / 2 ^ (binade q - 52)) * 2 ^ (binade q - 52)

/-- Values of type `float64`. -/
inductive F64 where
  | finite (q : ℚ)
  | posInf
  | negInf
  | nan

namespace F64

/-- Rounding of an exact result to `float64`: a rounded magnitude of `2^1024`
or more overflows to an infinity. -/
def ofRat (q : ℚ) : F64 :=
  if 2 ^ 1024 ≤ roundQ q then posInf
  else if roundQ q ≤ -2 ^ 1024 then negInf
  else finite (roundQ q)

/-- The conversion `float64(i)` of an integer. -/
def ofInt (i : ℤ) : F64 := ofRat i

/-- Subtraction `x - y`. -/
def sub : F64 → F64 → F64
  | nan, _ => nan
  | _, nan => nan
  | posInf, posInf => nan
  | negInf, negInf => nan
  | posInf, _ => posInf
  | negInf, _ => negInf
  | finite _, posInf => negInf
  | finite _, negInf => posInf
  | finite a, finite b => ofRat (a - b)

/-- Division `x / y`; a zero divisor counts as the positive zero. -/
def div : F64 → F64 → F64
  | nan, _ => nan
  | _, nan => nan
  | posInf, finite b => if 0 ≤ b then posInf else negInf
  | negInf, finite b => if 0 ≤ b then negInf else posInf
  | posInf, _ => nan
  | negInf, _ => nan
  | finite _, posInf => finite 0
  | finite _, negInf => finite 0
  | finite a, finite b =>
    if b = 0 then (if a = 0 then nan else if 0 < a then posInf else negInf)
    else ofRat (a / b)

/-- The function `math.Abs`. -/
def abs : F64 → F64
  | finite q => finite |q|
  | posInf => posInf
  | negInf => posInf
  | nan => nan

/-- The comparison `x < y`: false as soon as one side is a NaN. -/
def lt : F64 → F64 → Bool
  | nan, _ => false
  | _, nan => false
  | finite a, finite b => decide (a < b)
  | finite _, posInf => true
  | finite _, negInf => false
  | posInf, _ => false
  | negInf, negInf => false
  | negInf, _ => true

end F64

/-! ## The aspect classifier -/

/-- One entry of `FFProbeResult.Streams` after `json.Unmarshal`. -/
structure Stream where
  Width : ℤ
  Height : ℤ

/-- What running `ffprobe` on a file and decoding its output yields: the
command fails, the output does not decode, or a list of streams. -/
inductive Probe where
  | runError (err : String)
  | unmarshalError (err : String)
  | parsed (streams : List Stream)

/-- The constant `tolerance = 0.1` used as a `float64`. -/
def tolerance : F64 := F64.ofRat (1 / 10)

/-- The function `getVideoAspectRatio`; `ffprobe` stands for the external
command together with the decoding of its standard output. -/
def getVideoAspectRatio (ffprobe : String → Probe) (filePath : String) : Outcome String :=
  match ffprobe filePath with
  | .runError err => .ret "" (some err)
  | .unmarshalError err => .ret "" (some err)
  | .parsed streams =>
    match streams with
    | [] => .ret "" (some "no streams found in video")
    | s :: _ =>
      let width := s.Width
      let height := s.Height
      let aspectRatio := F64.div (F64.ofInt width) (F64.ofInt height)
      if F64.lt (F64.abs (F64.sub aspectRatio (F64.ofRat (16 / 9)))) tolerance then
        .ret "16:9" none
      else if F64.lt (F64.abs (F64.sub aspectRatio (F64.ofRat (9 / 16)))) tolerance then
        .ret "9:16" none
      else
        .ret "other" none

/-- The layout categories of the spec. -/
inductive Layout where
  | landscape
  | portrait
  | other

/-- The label `getVideoAspectRatio` returns for a layout category. -/
def Layout.label : Layout → String
  | .landscape => "16:9"
  | .portrait => "9:16"
  | .other => "other"

/-- The decision of `getVideoAspectRatio` on a binary64 ratio, as a layout
category: the two comparisons of the code, in the order of the code. -/
def specLayout (ratio : F64) : Layout :=
  let target9x16 := F64.ofRat (9 / 16)
  let target16x9 := F64.ofRat (16 / 9)
  let tol := F64.ofRat (1 / 10)
  if F64.lt (F64.abs (F64.sub ratio target16x9)) tol then .landscape
  else if F64.lt (F64.abs (F64.sub ratio target9x16)) tol then .portrait
  else .other

/-- The binary64 value `float64(width) / float64(height)` of the code. -/
def specRatio (width height : ℤ) : F64 :=
  F64.div (F64.ofInt width) (F64.ofInt height)

/-- The classification rule of the spec on exact numbers: landscape if
`|ratio − 16/9| < 0.1`, else portrait if `|ratio − 9/16| < 0.1`, else other,
with `16/9`, `9/16` and `0.1` the rational numbers and `ratio` a rational. -/
def exactLayout (ratio : ℚ) : Layout :=
  if |ratio - 16 / 9| < 1 / 10 then .landscape
  else if |ratio - 9 / 16| < 1 / 10 then .portrait
  else .other

/-- The four edges of the two bands of the rule, `16/9 ± 1/10` and
`9/16 ± 1/10`. -/
def bandEdges : List ℚ := [151 / 90, 169 / 90, 37 / 80, 53 / 80]

/-- The ratio is farther than `2^-49` from each edge of a band. -/
def ClearOfEdges (ratio : ℚ) : Prop := ∀ e ∈ bandEdges, 1 / 2 ^ 49 < |ratio - e|

/-- The range of the Go type `int` on a 64-bit platform. -/
def IsInt64 (i : ℤ) : Prop := -2 ^ 63 ≤ i ∧ i < 2 ^ 63

/-- A probe that decodes to the given streams whatever the file. -/
def probeOf (streams : List Stream) : String → Probe := fun _ => .parsed streams

/-! ## The storage key -/

/-- The table `hextable` of `encoding/hex`. -/
def hextable : List Char := "0123456789abcdef".data

/-- The function `hex.EncodeToString`: two digits per byte, `hextable[v>>4]`
then `hextable[v&0x0f]`. -/
def hexEncodeToString (src : List UInt8) : String :=
  String.mk (src.flatMap fun v =>
    [hextable.getD (v.toNat / 16) '0', hextable.getD (v.toNat % 16) '0'])

/-- The value of a lowercase hexadecimal digit; other characters have none. -/
def hexDigitValue (c : Char) : Option ℕ :=
  if '0' ≤ c ∧ c ≤ '9' then some (c.toNat - 48)
  else if 'a' ≤ c ∧ c ≤ 'f' then some (c.toNat - 87)
  else none

/-- The bytes that a hexadecimal text denotes: two digits per byte, the high
digit first.  A text of odd length or with another character denotes none. -/
def hexDecode : List Char → Option (List UInt8)
  | [] => some []
  | [_] => none
  | hi :: lo :: rest =>
    match hexDigitValue hi, hexDigitValue lo, hexDecode rest with
    | some h, some l, some bytes => some (UInt8.ofNat (16 * h + l) :: bytes)
    | _, _, _ => none

/-- The `switch aspectRatio` of `handlerUploadVideo`. -/
def videoLayoutOf (aspectRatio : String) : String :=
  if aspectRatio = "16:9" then "landscape"
  else if aspectRatio = "9:16" then "portrait"
  else "other"

/-- The key `fmt.Sprintf("%s/%s", videoLayout, randString)` with
`randString = hex.EncodeToString(randomBytes) + ".mp4"`. -/
def videoKeyOf (videoLayout : String) (randomBytes : List UInt8) : String :=
  videoLayout ++ "/" ++ (hexEncodeToString randomBytes ++ ".mp4")

/-! ## The world of one request -/

/-- The external state the handler reads and writes. -/
structure World where
  /-- The metadata store: the video records. -/
  videos : List Video
  /-- The object store: the `(bucket, key)` pairs that hold an object. -/
  objects : List (String × String)
  /-- The local filesystem: the paths of the temporary files that exist. -/
  files : Finset String

/-- A call the handler makes to a collaborator, as recorded in a run. -/
inductive Call where
  | createTemp
  | ffprobe (filePath : String)
  | ffmpeg (input output : String)
  | osOpen (path : String)
  | putObject (bucket key contentType : String)
  | updateVideo (video : Video)
  | presign (call : PresignCall)
  | osRemove (path : String)

/-- What the handler wrote to the `http.ResponseWriter`. -/
inductive Reply where
  | error (code : Nat) (msg : String)
  | json (code : Nat) (payload : Video)
  | panic (msg : String)

/-- The HTTP status of a reply, if one was written. -/
def Reply.status : Reply → Option Nat
  | .error code _ => some code
  | .json code _ => some code
  | .panic _ => none

/-- Modelled from the spec: `respondWithError` is defined outside the source
files at hand; it answers with the given status and message. -/
def respondWithError (code : Nat) (msg : String) : Reply := .error code msg

/-- Modelled from the spec: `respondWithJSON` is defined outside the source
files at hand; it answers with the given status and the record as JSON. -/
def respondWithJSON (code : Nat) (payload : Video) : Reply := .json code payload

/-- What the collaborators do during one request: the request itself as the
helpers `ExtractVideoID`, `GetUserID` and `FormFile` see it, and the result of
each external call. -/
structure Env where
  /-- Result of `ExtractVideoID(w, r)`. -/
  extractVideoID : Except String UUID
  /-- Result of `cfg.GetUserID(w, r)`. -/
  getUserID : Except String UUID
  /-- The `Content-Type` header of the part `video`; `none` when
  `r.FormFile("video")` fails and leaves `header` nil. -/
  formFile : Option String
  /-- Result of `mime.ParseMediaType(contentType)` on the declared type of the
  part: the media type or an error. -/
  parseMediaType : Except String String
  /-- Result of `os.CreateTemp`: the name of the new file or an error. -/
  createTemp : Except String String
  /-- Error of `io.Copy(videoFile, file)`, if any. -/
  copyErr : Option String
  /-- The command `ffprobe` with the decoding of its output. -/
  ffprobe : String → Probe
  /-- The bytes `rand.Read` leaves in `randomBytes`. -/
  randomBytes : List UInt8
  /-- The variable `S3_BUCKET` of the process environment. -/
  s3Bucket : String
  /-- Error of the command `ffmpeg`, if any. -/
  ffmpegErr : Option String
  /-- Whether a failing `ffmpeg` has left its output file behind. -/
  ffmpegLeavesOutput : Bool
  /-- Error of `os.Open(processedVideo)`, if any. -/
  openErr : Option String
  /-- Error of `PutObject`, if any. -/
  putObjectErr : Option String
  /-- Error of `UpdateVideo`, if any. -/
  updateVideoErr : Option String
  /-- The signing service. -/
  presign : Presigner

/-- Modelled from the spec: the metadata store's `GetVideo(id)` is defined in
`internal/database`, outside the source files at hand; it returns the record
with that identifier, or fails when there is none. -/
def GetVideo (w : World) (id : UUID) : Option Video :=
  w.videos.find? fun v => v.ID = id

/-- Modelled from the spec: the metadata store's `UpdateVideo(record)` is
defined in `internal/database`, outside the source files at hand; unless it
fails, it overwrites the record that has the same identifier. -/
def UpdateVideo (err : Option String) (video : Video) (w : World) : World :=
  match err with
  | some _ => w
  | none => { w with videos := w.videos.map fun v => if v.ID = video.ID then video else v }

/-- The object store's `PutObject`: unless it fails, the key holds an object. -/
def PutObject (err : Option String) (bucket key : String) (w : World) : World :=
  match err with
  | some _ => w
  | none => { w with objects := (bucket, key) :: w.objects }

/-- The function `processVideoForFastStart` with its effect on the
filesystem: a successful `ffmpeg` has written `filePath + ".processing"`. -/
def processVideoForFastStart (env : Env) (filePath : String) (w : World) :
    Outcome String × World :=
  let output := filePath ++ ".processing"
  match env.ffmpegErr with
  | some err =>
    (.ret "" (some err),
      if env.ffmpegLeavesOutput then { w with files := insert output w.files } else w)
  | none => (.ret output none, { w with files := insert output w.files })

/-- One run of the handler: the reply, the world it leaves and the calls it
made, in order. -/
structure Run where
  reply : Reply
  world : World
  calls : List Call

/-- The body of `handlerUploadVideo` from `io.Copy` on, that is after the two
deferred calls on the temporary file are registered. -/
def uploadStaged (env : Env) (videoData : Video) (mediaType name : String) (w : World) : Run :=
  match env.copyErr with
  | some _ => ⟨respondWithError 500 "could not copy file", w, []⟩
  | none =>
    match getVideoAspectRatio env.ffprobe name with
    | .panic m => ⟨.panic m, w, [.ffprobe name]⟩
    | .ret _ (some _) => ⟨respondWithError 500 "cannot get aspect ratio", w, [.ffprobe name]⟩
    | .ret aspectRatio none =>
      let videoLayout := videoLayoutOf aspectRatio
      let bucket := env.s3Bucket
      let videoKey := videoKeyOf videoLayout env.randomBytes
      let bucketKey := encodeBucketKey bucket videoKey
      let output := name ++ ".processing"
      match processVideoForFastStart env name w with
      | (.panic m, w1) => ⟨.panic m, w1, [.ffprobe name, .ffmpeg name output]⟩
      | (.ret _ (some _), w1) =>
        ⟨respondWithError 500 "cannot process video", w1, [.ffprobe name, .ffmpeg name output]⟩
      | (.ret processedVideo none, w1) =>
        match env.openErr with
        | some _ =>
          ⟨respondWithError 500 "cannot open file", w1,
            [.ffprobe name, .ffmpeg name output, .osOpen processedVideo]⟩
        | none =>
          let w2 := PutObject env.putObjectErr bucket videoKey w1
          let videoData := { videoData with VideoURL := some bucketKey }
          let w3 := UpdateVideo env.updateVideoErr videoData w2
          let calls := [.ffprobe name, .ffmpeg name output, .osOpen processedVideo,
            .putObject bucket videoKey mediaType, .updateVideo videoData]
          match dbVideoToSignedVideo env.presign videoData with
          | (.panic m, signing) => ⟨.panic m, w3, calls ++ signing.map .presign⟩
          | (.ret _ (some _), signing) =>
            ⟨respondWithError 500 "cannot assign video url", w3, calls ++ signing.map .presign⟩
          | (.ret video none, signing) =>
            ⟨respondWithJSON 200 video, w3, calls ++ signing.map .presign⟩

/-- The function `handlerUploadVideo`.  The deferred `os.Remove` of the
temporary file runs when the function returns, whatever the path. -/
def handlerUploadVideo (env : Env) (w : World) : Run :=
  match env.extractVideoID with
  | .error _ => ⟨respondWithError 400 "could not get video id", w, []⟩
  | .ok videoID =>
    match env.getUserID with
    | .error _ => ⟨respondWithError 401 "couldn't get user id", w, []⟩
    | .ok userID =>
      match GetVideo w videoID with
      | none => ⟨respondWithError 400 "video doesn't exist", w, []⟩
      | some videoData =>
        if videoData.UserID ≠ userID then
          ⟨respondWithError 401 "this is not your video", w, []⟩
        else
          match env.formFile with
          | none => ⟨.panic "invalid memory address or nil pointer dereference", w, []⟩
          | some _contentType =>
            match env.parseMediaType with
            | .error _ => ⟨respondWithError 500 "could not parse media", w, []⟩
            | .ok mediaType =>
              if mediaType ≠ "video/mp4" then
                ⟨respondWithError 400 "invalid format", w, []⟩
              else
                match env.createTemp with
                | .error _ => ⟨respondWithError 500 "cannot save video", w, [.createTemp]⟩
                | .ok name =>
                  let staged := uploadStaged env videoData mediaType name
                    { w with files := insert name w.files }
                  ⟨staged.reply,
                    { staged.world with files := staged.world.files.erase name },
                    .createTemp :: staged.calls ++ [.osRemove name]⟩

/-! ## Bounds on floating-point values -/

/-- A rational that binary64 holds exactly, as a finite value. -/
def Representable (a : ℚ) : Prop := roundQ a = a ∧ |a| < 2 ^ 1024

/-- The value `x` is finite and lies between `a` and `b`. -/
def F64.Within (x : F64) (a b : ℚ) : Prop := ∃ r, x = F64.finite r ∧ a ≤ r ∧ r ≤ b

/-- The classification of a `width x height` first stream. -/
def classify (width height : ℤ) : Outcome String :=
  getVideoAspectRatio (probeOf [⟨width, height⟩]) ""

/-- The directory name the handler gives a layout category. -/
def Layout.dir : Layout → String
  | .landscape => "landscape"
  | .portrait => "portrait"
  | .other => "other"

/-- Whether a result carries an error or is a panic. -/
def Outcome.failed {α : Type} : Outcome α → Bool
  | .ret _ (some _) => true
  | .ret _ none => false
  | .panic _ => true

/-! ## A sample request -/

/-- A request by user 7 for video 1 on which every step succeeds: a part of
declared type `video/mp4`, which the parser returns as it is, a first stream of
1280 x 720, thirty-two zero bytes from the random source, and collaborators
that report no error. -/
def sampleEnv : Env where
  extractVideoID := .ok 1
  getUserID := .ok 7
  formFile := some "video/mp4"
  parseMediaType := .ok "video/mp4"
  createTemp := .ok "/tmp/tubely-upload.mp4123"
  copyErr := none
  ffprobe := probeOf [⟨1280, 720⟩]
  randomBytes := List.replicate 32 0
  s3Bucket := "tubely"
  ffmpegErr := none
  ffmpegLeavesOutput := false
  openErr := none
  putObjectErr := none
  updateVideoErr := none
  presign := fun _ => .ok "https://signed.example/get"

/-- Thirty-two bytes of mixed values for the random source. -/
def sampleBytes : List UInt8 :=
  [0, 1, 15, 16, 31, 32, 127, 128, 154, 160, 169, 175, 176, 195, 212, 229,
   240, 246, 254, 255, 10, 60, 66, 87, 104, 121, 139, 156, 173, 190, 207, 208]

/-- A world in which video 1 belongs to user 7 and nothing is stored yet. -/
def sampleWorld : World where
  videos := [⟨1, 7, none, none⟩]
  objects := []
  files := ∅

/-- Whether the request passes the ownership guard and carries a part
`video` with the given declared content type. -/
def Env.Admits (env : Env) (w : World) (videoData : Video) (contentType : String) : Prop :=
  ∃ videoID, env.extractVideoID = .ok videoID ∧ env.getUserID = .ok videoData.UserID ∧
    GetVideo w videoID = some videoData ∧ env.formFile = some contentType

/-- Whether the request gets as far as the upload: it is admitted with a
content type that parses to `video/mp4`, the temporary file `name` is created
and filled, the probe finds `s` as first stream, and the remux and the opening
of its output succeed. -/
def Env.ReachesUpload (env : Env) (w : World) (videoData : Video) (name : String)
    (s : Stream) : Prop :=
  (∃ contentType, env.Admits w videoData contentType ∧
    env.parseMediaType = .ok "video/mp4") ∧
  env.createTemp = .ok name ∧ env.copyErr = none ∧
  (∃ rest, env.ffprobe name = .parsed (s :: rest)) ∧
  env.ffmpegErr = none ∧ env.openErr = none

/-- The reply `handlerUploadVideo` gives to a result of `dbVideoToSignedVideo`. -/
def signedReply : Outcome Video → Reply
  | .panic m => .panic m
  | .ret _ (some _) => respondWithError 500 "cannot assign video url"
  | .ret video none => respondWithJSON 200 video

/-! ## Facts about splitting -/

theorem splitChars_ne_nil (sep : Char) (s : List Char) : splitChars sep s ≠ [] := by
  cases s with
  | nil => simp [splitChars]
  | cons c cs =>
    simp only [splitChars]
    split
    · simp
    · split <;> simp

theorem splitChars_of_not_mem (sep : Char) (s : List Char) (h : sep ∉ s) :
    splitChars sep s = [s] := by
  induction s with
  | nil => rfl
  | cons c cs ih =>
    have hc : c ≠ sep := fun e => h (by simp [e])
    have hcs : sep ∉ cs := fun e => h (by simp [e])
    simp [splitChars, hc, ih hcs]

theorem splitChars_append_sep (sep : Char) (b k : List Char) (hb : sep ∉ b) :
    splitChars sep (b ++ sep :: k) = b :: splitChars sep k := by
  induction b with
  | nil => simp [splitChars]
  | cons c cs ih =>
    have hc : c ≠ sep := fun e => hb (by simp [e])
    have hcs : sep ∉ cs := fun e => hb (by simp [e])
    simp [splitChars, hc, ih hcs]

theorem stringsSplitComma_encode (b k : String) (hb : ',' ∉ b.data) (hk : ',' ∉ k.data) :
    stringsSplitComma (encodeBucketKey b k) = [b, k] := by
  have hd : (encodeBucketKey b k).data = b.data ++ ',' :: k.data := by
    simp [encodeBucketKey, String.data_append]
  simp [stringsSplitComma, hd, splitChars_append_sep _ _ _ hb, splitChars_of_not_mem _ _ hk]

/-! ## Facts about rounding -/

theorem roundHalfEven_cases (x : ℚ) :
    roundHalfEven x = ⌊x⌋ ∨ roundHalfEven x = ⌊x⌋ + 1 := by
  unfold roundHalfEven
  simp only
  split_ifs <;> simp

theorem roundHalfEven_intCast (n : ℤ) : roundHalfEven (n : ℚ) = n := by
  unfold roundHalfEven
  simp

theorem roundHalfEven_mono {x y : ℚ} (h : x ≤ y) : roundHalfEven x ≤ roundHalfEven y := by
  have hf : ⌊x⌋ ≤ ⌊y⌋ := Int.floor_mono h
  rcases lt_or_eq_of_le hf with hlt | heq
  · rcases roundHalfEven_cases x with hx | hx <;>
      rcases roundHalfEven_cases y with hy | hy <;> omega
  · unfold roundHalfEven
    simp only
    rw [← heq]
    have hd : x - ⌊x⌋ ≤ y - ⌊x⌋ := by linarith
    split_ifs <;> first | omega | (exfalso; linarith)

theorem roundHalfEven_neg (x : ℚ) : roundHalfEven (-x) = -roundHalfEven x := by
  unfold roundHalfEven
  simp only
  by_cases hx : (⌊x⌋ : ℚ) = x
  · have h1 : ⌊-x⌋ = -⌊x⌋ := by
      rw [← hx, ← Int.cast_neg, Int.floor_intCast, Int.floor_intCast]
    rw [h1]
    have h2 : x - ⌊x⌋ = 0 := by rw [hx]; ring
    have h3 : -x - ((-⌊x⌋ : ℤ) : ℚ) = 0 := by push_cast; rw [hx]; ring
    rw [h2, h3]
    norm_num
  · have hlt : (⌊x⌋ : ℚ) < x := lt_of_le_of_ne (Int.floor_le x) hx
    have hlt2 : x < ⌊x⌋ + 1 := Int.lt_floor_add_one x
    have h1 : ⌊-x⌋ = -⌊x⌋ - 1 := by
      rw [Int.floor_eq_iff]
      push_cast
      constructor <;> linarith
    rw [h1]
    push_cast
    split_ifs <;> first | omega | (exfalso; linarith)

theorem roundHalfEven_le_of_le {x : ℚ} {n : ℤ} (h : x ≤ n) : roundHalfEven x ≤ n := by
  have := roundHalfEven_mono h
  rwa [roundHalfEven_intCast] at this

theorem le_roundHalfEven_of_le {x : ℚ} {n : ℤ} (h : (n : ℚ) ≤ x) : n ≤ roundHalfEven x := by
  have := roundHalfEven_mono h
  rwa [roundHalfEven_intCast] at this

theorem two_zpow_pos (k : ℤ) : (0 : ℚ) < 2 ^ k := zpow_pos (by norm_num) k

theorem two_zpow_mono {m n : ℤ} (h : m ≤ n) : (2 : ℚ) ^ m ≤ 2 ^ n :=
  zpow_le_zpow_right₀ (by norm_num) h

theorem binade_neg (q : ℚ) : binade (-q) = binade q := by
  unfold binade; rw [abs_neg]

theorem roundQ_neg (q : ℚ) : roundQ (-q) = -roundQ q := by
  unfold roundQ
  rw [binade_neg, neg_div, roundHalfEven_neg]
  push_cast
  ring

theorem roundQ_zero : roundQ 0 = 0 := by simp [roundQ, roundHalfEven]

theorem binade_mono {x y : ℚ} (hx : 0 < x) (h : x ≤ y) : binade x ≤ binade y := by
  unfold binade
  have hy : 0 < y := lt_of_lt_of_le hx h
  rw [abs_of_pos hx, abs_of_pos hy]
  exact max_le_max (Int.log_mono_right hx h) le_rfl

theorem lt_two_zpow_binade (q : ℚ) : |q| < 2 ^ (binade q + 1) := by
  have h1 : |q| < ((2 : ℕ) : ℚ) ^ (Int.log 2 |q| + 1) :=
    Int.lt_zpow_succ_log_self (by norm_num) _
  have h2 : ((2 : ℕ) : ℚ) ^ (Int.log 2 |q| + 1) ≤ 2 ^ (binade q + 1) := by
    rw [Nat.cast_ofNat]
    apply two_zpow_mono
    unfold binade
    have := le_max_left (Int.log 2 |q|) (-1022)
    omega
  exact lt_of_lt_of_le h1 h2

theorem two_zpow_binade_le {q : ℚ} (hq : q ≠ 0) (hb : -1022 < binade q) :
    2 ^ binade q ≤ |q| := by
  have hlog : binade q = Int.log 2 |q| := by
    unfold binade at hb ⊢
    rcases max_cases (Int.log 2 |q|) (-1022) with ⟨h, _⟩ | ⟨h, _⟩
    · exact h
    · rw [h] at hb; omega
  rw [hlog]
  have := Int.zpow_log_le_self (R := ℚ) (b := 2) (by norm_num) (abs_pos.mpr hq)
  simpa using this

theorem roundQ_nonneg {q : ℚ} (hq : 0 ≤ q) : 0 ≤ roundQ q := by
  unfold roundQ
  have hu := two_zpow_pos (binade q - 52)
  have h0 : ((0 : ℤ) : ℚ) ≤ q / 2 ^ (binade q - 52) := by
    simpa using div_nonneg hq hu.le
  have := le_roundHalfEven_of_le h0
  have h2 : (0 : ℚ) ≤ (roundHalfEven (q / 2 ^ (binade q - 52)) : ℚ) := by exact_mod_cast this
  positivity

theorem two_zpow_succ_split (e : ℤ) : (2 : ℚ) ^ (e + 1) = 2 ^ 53 * 2 ^ (e - 52) := by
  rw [show e + 1 = 53 + (e - 52) by ring, zpow_add₀ (by norm_num)]
  norm_num

theorem two_zpow_split (e : ℤ) : (2 : ℚ) ^ e = 2 ^ 52 * 2 ^ (e - 52) := by
  rw [show e = 52 + (e - 52) by ring, zpow_add₀ (by norm_num)]
  norm_num

theorem roundQ_le_two_zpow {q : ℚ} (hq : 0 ≤ q) : roundQ q ≤ 2 ^ (binade q + 1) := by
  have hu := two_zpow_pos (binade q - 52)
  have h1 := lt_two_zpow_binade q
  rw [abs_of_nonneg hq, two_zpow_succ_split] at h1
  have h2 : q / 2 ^ (binade q - 52) ≤ ((2 ^ 53 : ℤ) : ℚ) := by
    rw [div_le_iff₀ hu]; push_cast; exact h1.le
  have h3 := roundHalfEven_le_of_le h2
  have h4 : (roundHalfEven (q / 2 ^ (binade q - 52)) : ℚ) ≤ 2 ^ 53 := by exact_mod_cast h3
  unfold roundQ
  rw [two_zpow_succ_split]
  exact mul_le_mul_of_nonneg_right h4 hu.le

theorem two_zpow_le_roundQ {q : ℚ} (hq : 0 < q) (hb : -1022 < binade q) :
    2 ^ binade q ≤ roundQ q := by
  have hu := two_zpow_pos (binade q - 52)
  have h1 := two_zpow_binade_le hq.ne' hb
  rw [abs_of_pos hq, two_zpow_split] at h1
  have h2 : ((2 ^ 52 : ℤ) : ℚ) ≤ q / 2 ^ (binade q - 52) := by
    rw [le_div_iff₀ hu]; push_cast; exact h1
  have h3 := le_roundHalfEven_of_le h2
  have h4 : (2 ^ 52 : ℚ) ≤ (roundHalfEven (q / 2 ^ (binade q - 52)) : ℚ) := by
    exact_mod_cast h3
  unfold roundQ
  rw [two_zpow_split (binade q)]
  exact mul_le_mul_of_nonneg_right h4 hu.le

theorem roundQ_mono_pos {x y : ℚ} (hx : 0 < x) (h : x ≤ y) : roundQ x ≤ roundQ y := by
  have hy : 0 < y := lt_of_lt_of_le hx h
  rcases lt_or_eq_of_le (binade_mono hx h) with hlt | heq
  · have h1 := roundQ_le_two_zpow hx.le
    have hby : -1022 < binade y := by
      have : -1022 ≤ binade x := le_max_right _ _
      omega
    have h2 := two_zpow_le_roundQ hy hby
    have h3 : (2 : ℚ) ^ (binade x + 1) ≤ 2 ^ binade y := two_zpow_mono (by omega)
    linarith
  · unfold roundQ
    rw [← heq]
    have hu := two_zpow_pos (binade x - 52)
    have h1 : x / 2 ^ (binade x - 52) ≤ y / 2 ^ (binade x - 52) :=
      div_le_div_of_nonneg_right h hu.le
    have h2 := roundHalfEven_mono h1
    have h3 : (roundHalfEven (x / 2 ^ (binade x - 52)) : ℚ)
        ≤ roundHalfEven (y / 2 ^ (binade x - 52)) := by exact_mod_cast h2
    exact mul_le_mul_of_nonneg_right h3 hu.le

/-- Rounding to binary64 is monotone. -/
theorem roundQ_mono {x y : ℚ} (h : x ≤ y) : roundQ x ≤ roundQ y := by
  rcases lt_trichotomy 0 x with hx | hx | hx
  · exact roundQ_mono_pos hx h
  · subst hx
    rw [roundQ_zero]; exact roundQ_nonneg h
  · rcases le_or_lt 0 y with hy | hy
    · have h1 := roundQ_nonneg hy
      have h2 : 0 ≤ roundQ (-x) := roundQ_nonneg (by linarith)
      rw [roundQ_neg] at h2
      linarith
    · have h1 : roundQ (-y) ≤ roundQ (-x) := roundQ_mono_pos (by linarith) (by linarith)
      rw [roundQ_neg, roundQ_neg] at h1
      linarith

/-- Rounding leaves an integer multiple of a power of two unchanged when the
integer has at most 53 bits and the power is in the exponent range. -/
theorem roundQ_dyadic (n k : ℤ) (hn : |n| < 2 ^ 53) (hk : -1074 ≤ k) :
    roundQ (n * 2 ^ k) = n * 2 ^ k := by
  rcases eq_or_ne n 0 with rfl | hn0
  · simp [roundQ, roundHalfEven]
  have hq : (n : ℚ) * 2 ^ k ≠ 0 := mul_ne_zero (by exact_mod_cast hn0) (two_zpow_pos k).ne'
  have hlog : Int.log 2 |(n : ℚ) * 2 ^ k| < 53 + k := by
    rw [← Int.lt_zpow_iff_log_lt (by norm_num) (abs_pos.mpr hq)]
    rw [abs_mul, abs_of_pos (two_zpow_pos k), Nat.cast_ofNat, zpow_add₀ (by norm_num)]
    apply mul_lt_mul_of_pos_right _ (two_zpow_pos k)
    have : ((|n| : ℤ) : ℚ) < ((2 ^ 53 : ℤ) : ℚ) := by exact_mod_cast hn
    rw [Int.cast_abs] at this
    calc |(n : ℚ)| < ((2 ^ 53 : ℤ) : ℚ) := this
      _ = 2 ^ (53 : ℤ) := by norm_num
  have hb : binade (n * 2 ^ k) - 52 ≤ k := by
    unfold binade
    rcases max_cases (Int.log 2 |(n : ℚ) * 2 ^ k|) (-1022) with ⟨h, _⟩ | ⟨h, _⟩ <;>
      rw [h] <;> omega
  unfold roundQ
  obtain ⟨d, hd⟩ : ∃ d : ℕ, k = binade (n * 2 ^ k) - 52 + d :=
    ⟨(k - (binade (n * 2 ^ k) - 52)).toNat, by omega⟩
  generalize binade (n * 2 ^ k) = b at hd hb ⊢
  have hu := two_zpow_pos (b - 52)
  have h1 : (n : ℚ) * 2 ^ k / 2 ^ (b - 52) = ((n * 2 ^ d : ℤ) : ℚ) := by
    rw [hd, zpow_add₀ (by norm_num), zpow_natCast]
    push_cast
    field_simp
    ring
  rw [h1, roundHalfEven_intCast, hd, zpow_add₀ (by norm_num), zpow_natCast]
  push_cast
  ring

theorem representable_dyadic (n k : ℤ) (hn : |n| < 2 ^ 53) (hk : -1074 ≤ k) (hk2 : k ≤ 970) :
    Representable (n * 2 ^ k) := by
  refine ⟨roundQ_dyadic n k hn hk, ?_⟩
  have h1 : |(n : ℚ)| < 2 ^ (53 : ℤ) := by
    have : ((|n| : ℤ) : ℚ) < ((2 ^ 53 : ℤ) : ℚ) := by exact_mod_cast hn
    rw [Int.cast_abs] at this
    calc |(n : ℚ)| < ((2 ^ 53 : ℤ) : ℚ) := this
      _ = 2 ^ (53 : ℤ) := by norm_num
  have h2 : (2 : ℚ) ^ k ≤ 2 ^ (970 : ℤ) := two_zpow_mono hk2
  rw [abs_mul, abs_of_pos (two_zpow_pos k)]
  calc |(n : ℚ)| * 2 ^ k ≤ |(n : ℚ)| * 2 ^ (970 : ℤ) :=
        mul_le_mul_of_nonneg_left h2 (abs_nonneg _)
    _ < 2 ^ (53 : ℤ) * 2 ^ (970 : ℤ) := mul_lt_mul_of_pos_right h1 (two_zpow_pos _)
    _ = 2 ^ (1023 : ℤ) := by rw [← zpow_add₀ (by norm_num)]; norm_num
    _ < 2 ^ 1024 := by norm_num

theorem representable_int (n : ℤ) (hn : |n| < 2 ^ 53) : Representable (n : ℚ) := by
  have := representable_dyadic n 0 hn (by norm_num) (by norm_num)
  simpa using this

/-! ## Bounds on floating-point results -/

theorem F64.ofRat_within {q a b : ℚ} (ha : Representable a) (hb : Representable b)
    (h1 : a ≤ q) (h2 : q ≤ b) : (F64.ofRat q).Within a b := by
  have l1 : a ≤ roundQ q := by rw [← ha.1]; exact roundQ_mono h1
  have l2 : roundQ q ≤ b := by rw [← hb.1]; exact roundQ_mono h2
  have a1 := abs_lt.mp ha.2
  have b1 := abs_lt.mp hb.2
  refine ⟨roundQ q, ?_, l1, l2⟩
  unfold F64.ofRat
  rw [if_neg (by linarith), if_neg (by linarith)]

theorem F64.ofRat_representable {a : ℚ} (ha : Representable a) :
    F64.ofRat a = F64.finite a := by
  obtain ⟨r, hr, h1, h2⟩ := F64.ofRat_within ha ha le_rfl le_rfl
  rw [hr, le_antisymm h2 h1]

theorem F64.sub_within {x y : F64} {a b c d l u : ℚ} (hx : x.Within a b) (hy : y.Within c d)
    (hl : Representable l) (hu : Representable u) (h1 : l ≤ a - d) (h2 : b - c ≤ u) :
    (F64.sub x y).Within l u := by
  obtain ⟨r, rfl, h3, h4⟩ := hx
  obtain ⟨s, rfl, h5, h6⟩ := hy
  exact F64.ofRat_within hl hu (by linarith) (by linarith)

theorem F64.abs_within {x : F64} {a b c : ℚ} (hx : x.Within a b) (h1 : -c ≤ a) (h2 : b ≤ c) :
    (F64.abs x).Within 0 c := by
  obtain ⟨r, rfl, h3, h4⟩ := hx
  exact ⟨|r|, rfl, abs_nonneg r, abs_le.mpr ⟨by linarith, by linarith⟩⟩

theorem F64.abs_within_of_nonpos {x : F64} {a b : ℚ} (hx : x.Within a b) (hb : b ≤ 0) :
    (F64.abs x).Within (-b) (-a) := by
  obtain ⟨r, rfl, h3, h4⟩ := hx
  refine ⟨|r|, rfl, ?_, ?_⟩ <;> rw [abs_of_nonpos (by linarith)] <;> linarith

theorem F64.abs_within_of_nonneg {x : F64} {a b : ℚ} (hx : x.Within a b) (ha : 0 ≤ a) :
    (F64.abs x).Within a b := by
  obtain ⟨r, rfl, h3, h4⟩ := hx
  refine ⟨|r|, rfl, ?_, ?_⟩ <;> rw [abs_of_nonneg (by linarith)] <;> linarith

theorem F64.lt_of_within {x y : F64} {a b c d : ℚ} (hx : x.Within a b) (hy : y.Within c d)
    (h : b < c) : F64.lt x y = true := by
  obtain ⟨r, rfl, h1, h2⟩ := hx
  obtain ⟨s, rfl, h3, h4⟩ := hy
  simp only [F64.lt, decide_eq_true_eq]
  linarith

theorem F64.not_lt_of_within {x y : F64} {a b c d : ℚ} (hx : x.Within a b) (hy : y.Within c d)
    (h : d ≤ a) : F64.lt x y = false := by
  obtain ⟨r, rfl, h1, h2⟩ := hx
  obtain ⟨s, rfl, h3, h4⟩ := hy
  simp only [F64.lt, decide_eq_false_iff_not, not_lt]
  linarith

/-! ## The constants of the classifier -/

theorem representable_neg {a : ℚ} (h : Representable a) : Representable (-a) :=
  ⟨by rw [roundQ_neg, h.1], by rw [abs_neg]; exact h.2⟩

theorem rep_7_4 : Representable (7 / 4) := by
  have h := representable_dyadic 7 (-2) (by norm_num) (by norm_num) (by norm_num)
  norm_num at h
  exact h

theorem rep_15_8 : Representable (15 / 8) := by
  have h := representable_dyadic 15 (-3) (by norm_num) (by norm_num) (by norm_num)
  norm_num at h
  exact h

theorem rep_3_32 : Representable (3 / 32) := by
  have h := representable_dyadic 3 (-5) (by norm_num) (by norm_num) (by norm_num)
  norm_num at h
  exact h

theorem rep_1_8 : Representable (1 / 8) := by
  have h := representable_dyadic 1 (-3) (by norm_num) (by norm_num) (by norm_num)
  norm_num at h
  exact h

theorem rep_9_16 : Representable (9 / 16) := by
  have h := representable_dyadic 9 (-4) (by norm_num) (by norm_num) (by norm_num)
  norm_num at h
  exact h

theorem rep_1_2 : Representable (1 / 2) := by
  have h := representable_dyadic 1 (-1) (by norm_num) (by norm_num) (by norm_num)
  norm_num at h
  exact h

theorem rep_5_8 : Representable (5 / 8) := by
  have h := representable_dyadic 5 (-3) (by norm_num) (by norm_num) (by norm_num)
  norm_num at h
  exact h

theorem rep_13_8 : Representable (13 / 8) := by
  have h := representable_dyadic 13 (-3) (by norm_num) (by norm_num) (by norm_num)
  norm_num at h
  exact h

theorem rep_9_8 : Representable (9 / 8) := by
  have h := representable_dyadic 9 (-3) (by norm_num) (by norm_num) (by norm_num)
  norm_num at h
  exact h

theorem rep_11_8 : Representable (11 / 8) := by
  have h := representable_dyadic 11 (-3) (by norm_num) (by norm_num) (by norm_num)
  norm_num at h
  exact h

theorem rep_1_16 : Representable (1 / 16) := by
  have h := representable_dyadic 1 (-4) (by norm_num) (by norm_num) (by norm_num)
  norm_num at h
  exact h

theorem rep_2 : Representable 2 := by
  have h := representable_int 2 (by norm_num)
  norm_num at h
  exact h

theorem target16x9_within : (F64.ofRat (16 / 9)).Within (7 / 4) (15 / 8) :=
  F64.ofRat_within rep_7_4 rep_15_8 (by norm_num) (by norm_num)

theorem tolerance_within : tolerance.Within (3 / 32) (1 / 8) :=
  F64.ofRat_within rep_3_32 rep_1_8 (by norm_num) (by norm_num)

theorem target9x16_within : (F64.ofRat (9 / 16)).Within (9 / 16) (9 / 16) :=
  F64.ofRat_within rep_9_16 rep_9_16 le_rfl le_rfl

/-! ## The classifier -/

theorem getVideoAspectRatio_parsed (ffprobe : String → Probe) (filePath : String)
    (s : Stream) (rest : List Stream) (h : ffprobe filePath = .parsed (s :: rest)) :
    getVideoAspectRatio ffprobe filePath
      = .ret (specLayout (specRatio s.Width s.Height)).label none := by
  simp only [getVideoAspectRatio, h, specLayout, specRatio, tolerance]
  split_ifs <;> rfl

theorem classify_eq (w h : ℤ) :
    classify w h = .ret (specLayout (specRatio w h)).label none :=
  getVideoAspectRatio_parsed _ _ ⟨w, h⟩ [] rfl

theorem specLayout_landscape_iff (r : F64) :
    specLayout r = .landscape ↔
      F64.lt (F64.abs (F64.sub r (F64.ofRat (16 / 9)))) tolerance = true := by
  unfold specLayout tolerance
  simp only []
  split_ifs with h1 h2 <;> simp_all

/-- A ratio the classifier takes for 16:9 is finite and strictly between 13/8 and 2. -/
theorem near_target16x9 (r : F64)
    (h : F64.lt (F64.abs (F64.sub r (F64.ofRat (16 / 9)))) tolerance = true) :
    ∃ q, r = F64.finite q ∧ 13 / 8 < q ∧ q < 2 := by
  obtain ⟨c, hc, hc1, hc2⟩ := target16x9_within
  obtain ⟨t, ht, ht1, ht2⟩ := tolerance_within
  rw [hc, ht] at h
  cases r with
  | finite q =>
    have key : |roundQ (q - c)| < 1 / 8 := by
      simp only [F64.sub, F64.ofRat] at h
      split_ifs at h with g1 g2
      · simp [F64.abs, F64.lt] at h
      · simp [F64.abs, F64.lt] at h
      · simp only [F64.abs, F64.lt, decide_eq_true_eq] at h
        linarith
    have h' := abs_lt.mp key
    refine ⟨q, rfl, ?_, ?_⟩
    · by_contra hcon
      rw [not_lt] at hcon
      have h3 : roundQ (q - c) ≤ roundQ (-(1 / 8)) := roundQ_mono (by linarith)
      rw [(representable_neg rep_1_8).1] at h3
      linarith
    · by_contra hcon
      rw [not_lt] at hcon
      have h3 : roundQ (1 / 8) ≤ roundQ (q - c) := roundQ_mono (by linarith)
      rw [rep_1_8.1] at h3
      linarith
  | posInf => simp [F64.sub, F64.abs, F64.lt] at h
  | negInf => simp [F64.sub, F64.abs, F64.lt] at h
  | nan => simp [F64.sub, F64.abs, F64.lt] at h

theorem F64.ofRat_eq_finite {q r : ℚ} (h : F64.ofRat q = F64.finite r) : r = roundQ q := by
  unfold F64.ofRat at h
  split_ifs at h
  injection h with h
  exact h.symm

/-- A quotient that is finite and not zero comes from two finite operands. -/
theorem F64.div_eq_finite {x y : F64} {q : ℚ} (h : F64.div x y = F64.finite q) (hq : q ≠ 0) :
    ∃ a b, x = F64.finite a ∧ y = F64.finite b ∧ b ≠ 0 ∧ q = roundQ (a / b) := by
  cases x <;> cases y <;> simp only [F64.div] at h
  all_goals try (split_ifs at h)
  all_goals first
    | (cases h; done)
    | (injection h with h; exact absurd h.symm hq)
    | skip
  rename_i a b hb
  exact ⟨a, b, rfl, rfl, hb, F64.ofRat_eq_finite h⟩

theorem rep_zero : Representable 0 := by
  have h := representable_int 0 (by norm_num)
  norm_num at h
  exact h

theorem rep_1 : Representable 1 := by
  have h := representable_int 1 (by norm_num)
  norm_num at h
  exact h

theorem rep_3_4 : Representable (3 / 4) := by
  have h := representable_dyadic 3 (-2) (by norm_num) (by norm_num) (by norm_num)
  norm_num at h
  exact h

theorem rep_7_8 : Representable (7 / 8) := by
  have h := representable_dyadic 7 (-3) (by norm_num) (by norm_num) (by norm_num)
  norm_num at h
  exact h

theorem rep_1_4 : Representable (1 / 4) := by
  have h := representable_dyadic 1 (-2) (by norm_num) (by norm_num) (by norm_num)
  norm_num at h
  exact h

theorem rep_7_16 : Representable (7 / 16) := by
  have h := representable_dyadic 7 (-4) (by norm_num) (by norm_num) (by norm_num)
  norm_num at h
  exact h

theorem rep_23_16 : Representable (23 / 16) := by
  have h := representable_dyadic 23 (-4) (by norm_num) (by norm_num) (by norm_num)
  norm_num at h
  exact h

theorem F64.within_self (a : ℚ) : (F64.finite a).Within a a := ⟨a, rfl, le_rfl, le_rfl⟩

theorem F64.ofInt_small (n : ℤ) (hn : |n| < 2 ^ 53) : F64.ofInt n = F64.finite n :=
  F64.ofRat_representable (representable_int n hn)

theorem specRatio_small (w h : ℤ) (hw : |w| < 2 ^ 53) (hh : |h| < 2 ^ 53) (h0 : h ≠ 0) :
    specRatio w h = F64.ofRat ((w : ℚ) / h) := by
  have : (h : ℚ) ≠ 0 := by exact_mod_cast h0
  simp [specRatio, F64.ofInt_small w hw, F64.ofInt_small h hh, F64.div, this]

/-- The target ratio itself is landscape. -/
theorem specLayout_target16x9 : specLayout (F64.ofRat (16 / 9)) = .landscape := by
  rw [specLayout_landscape_iff]
  obtain ⟨c, hc, -, -⟩ := target16x9_within
  have h0 : (F64.sub (F64.ofRat (16 / 9)) (F64.ofRat (16 / 9))).Within 0 0 := by
    rw [hc]
    exact F64.sub_within (F64.within_self c) (F64.within_self c) rep_zero rep_zero
      (by linarith) (by linarith)
  exact F64.lt_of_within (F64.abs_within_of_nonneg h0 le_rfl) tolerance_within (by norm_num)

/-- A ratio between 1/2 and 5/8 is portrait. -/
theorem specLayout_portrait_of_within {r : F64} (hr : r.Within (1 / 2) (5 / 8)) :
    specLayout r = .portrait := by
  have h1 : (F64.sub r (F64.ofRat (16 / 9))).Within (-(11 / 8)) (-(9 / 8)) :=
    F64.sub_within hr target16x9_within (representable_neg rep_11_8)
      (representable_neg rep_9_8) (by norm_num) (by norm_num)
  have h2 : F64.lt (F64.abs (F64.sub r (F64.ofRat (16 / 9)))) (F64.ofRat (1 / 10)) = false :=
    F64.not_lt_of_within (F64.abs_within_of_nonpos h1 (by norm_num)) tolerance_within
      (by norm_num)
  have h3 : (F64.sub r (F64.ofRat (9 / 16))).Within (-(1 / 16)) (1 / 16) :=
    F64.sub_within hr target9x16_within (representable_neg rep_1_16) rep_1_16
      (by norm_num) (by norm_num)
  have h4 : F64.lt (F64.abs (F64.sub r (F64.ofRat (9 / 16)))) (F64.ofRat (1 / 10)) = true :=
    F64.lt_of_within (F64.abs_within h3 le_rfl le_rfl) tolerance_within (by norm_num)
  unfold specLayout
  simp only [h2, h4]
  rfl

/-- A ratio of exactly one is neither landscape nor portrait. -/
theorem specLayout_one : specLayout (F64.finite 1) = .other := by
  have hr := F64.within_self 1
  have h1 : (F64.sub (F64.finite 1) (F64.ofRat (16 / 9))).Within (-(7 / 8)) (-(3 / 4)) :=
    F64.sub_within hr target16x9_within (representable_neg rep_7_8)
      (representable_neg rep_3_4) (by norm_num) (by norm_num)
  have h2 : F64.lt (F64.abs (F64.sub (F64.finite 1) (F64.ofRat (16 / 9))))
      (F64.ofRat (1 / 10)) = false :=
    F64.not_lt_of_within (F64.abs_within_of_nonpos h1 (by norm_num)) tolerance_within
      (by norm_num)
  have h3 : (F64.sub (F64.finite 1) (F64.ofRat (9 / 16))).Within (7 / 16) (7 / 16) :=
    F64.sub_within hr target9x16_within rep_7_16 rep_7_16 (by norm_num) (by norm_num)
  have h4 : F64.lt (F64.abs (F64.sub (F64.finite 1) (F64.ofRat (9 / 16))))
      (F64.ofRat (1 / 10)) = false :=
    F64.not_lt_of_within (F64.abs_within_of_nonneg h3 (by norm_num)) tolerance_within
      (by norm_num)
  unfold specLayout
  simp only [h2, h4]
  rfl

/-- A ratio of exactly two is neither landscape nor portrait. -/
theorem specLayout_two : specLayout (F64.finite 2) = .other := by
  have hr := F64.within_self 2
  have h1 : (F64.sub (F64.finite 2) (F64.ofRat (16 / 9))).Within (1 / 8) (1 / 4) :=
    F64.sub_within hr target16x9_within rep_1_8 rep_1_4 (by norm_num) (by norm_num)
  have h2 : F64.lt (F64.abs (F64.sub (F64.finite 2) (F64.ofRat (16 / 9))))
      (F64.ofRat (1 / 10)) = false :=
    F64.not_lt_of_within (F64.abs_within_of_nonneg h1 (by norm_num)) tolerance_within
      (by norm_num)
  have h3 : (F64.sub (F64.finite 2) (F64.ofRat (9 / 16))).Within (23 / 16) (23 / 16) :=
    F64.sub_within hr target9x16_within rep_23_16 rep_23_16 (by norm_num) (by norm_num)
  have h4 : F64.lt (F64.abs (F64.sub (F64.finite 2) (F64.ofRat (9 / 16))))
      (F64.ofRat (1 / 10)) = false :=
    F64.not_lt_of_within (F64.abs_within_of_nonneg h3 (by norm_num)) tolerance_within
      (by norm_num)
  unfold specLayout
  simp only [h2, h4]
  rfl

theorem specLayout_1280_720 : specLayout (specRatio 1280 720) = .landscape := by
  rw [specRatio_small 1280 720 (by norm_num) (by norm_num) (by norm_num)]
  have : ((1280 : ℤ) : ℚ) / ((720 : ℤ) : ℚ) = 16 / 9 := by norm_num
  rw [this]
  exact specLayout_target16x9

theorem specLayout_16_9 : specLayout (specRatio 16 9) = .landscape := by
  rw [specRatio_small 16 9 (by norm_num) (by norm_num) (by norm_num)]
  have : ((16 : ℤ) : ℚ) / ((9 : ℤ) : ℚ) = 16 / 9 := by norm_num
  rw [this]
  exact specLayout_target16x9

theorem specLayout_720_1280 : specLayout (specRatio 720 1280) = .portrait := by
  rw [specRatio_small 720 1280 (by norm_num) (by norm_num) (by norm_num)]
  exact specLayout_portrait_of_within
    (F64.ofRat_within rep_1_2 rep_5_8 (by norm_num) (by norm_num))

theorem specLayout_1_2 : specLayout (specRatio 1 2) = .portrait := by
  rw [specRatio_small 1 2 (by norm_num) (by norm_num) (by norm_num)]
  exact specLayout_portrait_of_within
    (F64.ofRat_within rep_1_2 rep_5_8 (by norm_num) (by norm_num))

theorem specLayout_640_640 : specLayout (specRatio 640 640) = .other := by
  rw [specRatio_small 640 640 (by norm_num) (by norm_num) (by norm_num)]
  have : ((640 : ℤ) : ℚ) / ((640 : ℤ) : ℚ) = 1 := by norm_num
  rw [this, F64.ofRat_representable rep_1]
  exact specLayout_one

theorem specLayout_2_1 : specLayout (specRatio 2 1) = .other := by
  rw [specRatio_small 2 1 (by norm_num) (by norm_num) (by norm_num)]
  have : ((2 : ℤ) : ℚ) / ((1 : ℤ) : ℚ) = 2 := by norm_num
  rw [this, F64.ofRat_representable rep_2]
  exact specLayout_two

/-- Swapping the sides of a landscape frame gives a portrait frame. -/
theorem specLayout_swap (w h : ℤ) (hl : specLayout (specRatio w h) = .landscape) :
    specLayout (specRatio h w) = .portrait := by
  rw [specLayout_landscape_iff] at hl
  obtain ⟨q, hq, hq1, hq2⟩ := near_target16x9 _ hl
  obtain ⟨a, b, ha, hb, hb0, hab⟩ := F64.div_eq_finite hq (by linarith)
  have l1 : 13 / 8 < a / b := by
    by_contra hcon
    rw [not_lt] at hcon
    have := roundQ_mono hcon
    rw [rep_13_8.1, ← hab] at this
    linarith
  have l2 : a / b < 2 := by
    by_contra hcon
    rw [not_lt] at hcon
    have := roundQ_mono hcon
    rw [rep_2.1, ← hab] at this
    linarith
  have hpos : 0 < a / b := by linarith
  have ha0 : a ≠ 0 := by
    rintro rfl
    simp at hpos
  have hinv : b / a = (a / b)⁻¹ := by rw [inv_div]
  have l3 : 1 / 2 ≤ b / a := by
    rw [hinv, le_inv_comm₀ (by norm_num) hpos]
    norm_num
    exact l2.le
  have l4 : b / a ≤ 5 / 8 := by
    rw [hinv, inv_le_comm₀ hpos (by norm_num)]
    norm_num
    linarith
  have hswap : specRatio h w = F64.ofRat (b / a) := by
    unfold specRatio at hq ⊢
    rw [ha, hb]
    simp [F64.div, ha0]
  rw [hswap]
  exact specLayout_portrait_of_within (F64.ofRat_within rep_1_2 rep_5_8 l3 l4)

theorem Layout.label_injective {a b : Layout} (h : a.label = b.label) : a = b := by
  cases a <;> cases b <;> first | rfl | (exact absurd h (by decide))

/-! ## The claims on the classifier -/

/-- C9, counterexample: a 1 x 2 frame is portrait although the 2 x 1 frame is
not landscape but "other", so neither equivalence of the claim holds at
`w = 2`, `h = 1`. -/
theorem classify_swap_counterexample :
    classify 2 1 = .ret "other" none ∧ classify 1 2 = .ret "9:16" none ∧
    ¬ (classify 2 1 = .ret "16:9" none ↔ classify 1 2 = .ret "9:16" none) ∧
    ¬ (classify 2 1 = .ret "other" none ↔ classify 1 2 = .ret "other" none) := by
  have h1 : classify 2 1 = .ret "other" none := by
    rw [classify_eq, specLayout_2_1]; rfl
  have h2 : classify 1 2 = .ret "9:16" none := by
    rw [classify_eq, specLayout_1_2]; rfl
  refine ⟨h1, h2, ?_, ?_⟩
  · rw [h1, h2]; decide
  · rw [h1, h2]; decide

/-- C9, amended: whenever a `w x h` first stream classifies as "16:9", the
swapped `h x w` stream classifies as "9:16". -/
theorem classify_landscape_swap (w h : ℤ) (hl : classify w h = .ret "16:9" none) :
    classify h w = .ret "9:16" none := by
  rw [classify_eq] at hl ⊢
  have h1 : (specLayout (specRatio w h)).label = Layout.landscape.label := by
    injection hl
  rw [specLayout_swap w h (Layout.label_injective h1)]
  rfl

theorem classify_16_9 : classify 16 9 = .ret "16:9" none := by
  rw [classify_eq, specLayout_16_9]; rfl

/-- C9, witness: 16 x 9 is "16:9" and 9 x 16 is "9:16". -/
theorem classify_landscape_swap_witness :
    classify 16 9 = .ret "16:9" none ∧ classify 9 16 = .ret "9:16" none :=
  ⟨classify_16_9, classify_landscape_swap 16 9 classify_16_9⟩

/-! ## The claims on the location descriptor -/

/-- C3: for a bucket and a key without a comma, the split that
`dbVideoToSignedVideo` applies to the descriptor `handlerUploadVideo` builds
gives back exactly the bucket and the key, and these are what the signing
service is asked for. -/
theorem location_roundtrip (presign : Presigner) (video : Video) (b k : String)
    (hb : ',' ∉ b.data) (hk : ',' ∉ k.data) :
    stringsSplitComma (encodeBucketKey b k) = [b, k] ∧
    (dbVideoToSignedVideo presign { video with VideoURL := some (encodeBucketKey b k) }).2
      = [⟨b, k, timeHour⟩] := by
  have hs := stringsSplitComma_encode b k hb hk
  refine ⟨hs, ?_⟩
  simp only [dbVideoToSignedVideo, hs, generatePresignedURL]
  cases presign ⟨b, k, timeHour⟩ <;> rfl

/-- C3, witness: bucket "tubely" and key "other/00.mp4". -/
theorem location_roundtrip_witness :
    stringsSplitComma (encodeBucketKey "tubely" "other/00.mp4") = ["tubely", "other/00.mp4"] ∧
    (dbVideoToSignedVideo (fun _ => .ok "u")
      { (⟨1, 7, none, none⟩ : Video) with
        VideoURL := some (encodeBucketKey "tubely" "other/00.mp4") }).2
      = [⟨"tubely", "other/00.mp4", timeHour⟩] :=
  location_roundtrip (fun _ => .ok "u") ⟨1, 7, none, none⟩ "tubely" "other/00.mp4"
    (by decide) (by decide)

/-- C4, counterexample: the descriptors "a,b,c" (two commas), ",k" (empty
bucket) and "b," (empty key) do not split into exactly two non-empty parts, yet
`dbVideoToSignedVideo` calls the signing service for each and returns no
error. -/
theorem decode_counterexample :
    stringsSplitComma "a,b,c" = ["a", "b", "c"] ∧
    dbVideoToSignedVideo (fun _ => .ok "signed") ⟨1, 7, none, some "a,b,c"⟩
      = (.ret ⟨1, 7, none, some "signed"⟩ none, [⟨"a", "b", timeHour⟩]) ∧
    dbVideoToSignedVideo (fun _ => .ok "signed") ⟨1, 7, none, some ",k"⟩
      = (.ret ⟨1, 7, none, some "signed"⟩ none, [⟨"", "k", timeHour⟩]) ∧
    dbVideoToSignedVideo (fun _ => .ok "signed") ⟨1, 7, none, some "b,"⟩
      = (.ret ⟨1, 7, none, some "signed"⟩ none, [⟨"b", "", timeHour⟩]) := by
  refine ⟨by decide, by decide, by decide, by decide⟩

/-- C4, amended: `dbVideoToSignedVideo` does not validate the descriptor.  For
a present descriptor whose split has at least two parts it asks the signing
service for the first two parts, with a lifetime of one hour, whatever the
parts and whatever follows them, and it returns an error exactly when the
signing service fails. -/
theorem dbVideoToSignedVideo_decode (presign : Presigner) (video : Video)
    (d b k : String) (rest : List String) (hd : video.VideoURL = some d)
    (hs : stringsSplitComma d = b :: k :: rest) :
    (dbVideoToSignedVideo presign video).2 = [⟨b, k, timeHour⟩] ∧
    ((dbVideoToSignedVideo presign video).1.failed = true ↔
      ∃ e, presign ⟨b, k, timeHour⟩ = .error e) := by
  simp only [dbVideoToSignedVideo, hd, hs, generatePresignedURL]
  cases presign ⟨b, k, timeHour⟩ <;> simp [Outcome.failed]

/-- C4, witness: the descriptor "a,b,c" with a signing service that succeeds. -/
theorem dbVideoToSignedVideo_decode_witness :
    (dbVideoToSignedVideo (fun _ => .ok "signed") ⟨1, 7, none, some "a,b,c"⟩).2
      = [⟨"a", "b", timeHour⟩] ∧
    ((dbVideoToSignedVideo (fun _ => .ok "signed") ⟨1, 7, none, some "a,b,c"⟩).1.failed = true ↔
      ∃ e, (fun _ => .ok "signed" : Presigner) ⟨"a", "b", timeHour⟩ = .error e) :=
  dbVideoToSignedVideo_decode (fun _ => .ok "signed") ⟨1, 7, none, some "a,b,c"⟩
    "a,b,c" "a" "b" ["c"] rfl (by decide)

/-! ## The handler, step by step -/

theorem handlerUploadVideo_admitted (env : Env) (w : World) (videoData : Video)
    (contentType : String) (h : env.Admits w videoData contentType) :
    handlerUploadVideo env w =
      match env.parseMediaType with
      | .error _ => ⟨respondWithError 500 "could not parse media", w, []⟩
      | .ok mediaType =>
        if mediaType ≠ "video/mp4" then ⟨respondWithError 400 "invalid format", w, []⟩
        else
          match env.createTemp with
          | .error _ => ⟨respondWithError 500 "cannot save video", w, [.createTemp]⟩
          | .ok name =>
            let staged := uploadStaged env videoData mediaType name
              { w with files := insert name w.files }
            ⟨staged.reply, { staged.world with files := staged.world.files.erase name },
              .createTemp :: staged.calls ++ [.osRemove name]⟩ := by
  obtain ⟨videoID, h1, h2, h3, h4⟩ := h
  simp only [handlerUploadVideo, h1, h2, h3, h4, ne_eq, not_true_eq_false, if_false]

theorem getVideoAspectRatio_ok_inv (ffprobe : String → Probe) (filePath aspect : String)
    (h : getVideoAspectRatio ffprobe filePath = .ret aspect none) :
    ∃ s rest, ffprobe filePath = .parsed (s :: rest) ∧
      aspect = (specLayout (specRatio s.Width s.Height)).label := by
  cases hp : ffprobe filePath with
  | runError err => simp [getVideoAspectRatio, hp] at h
  | unmarshalError err => simp [getVideoAspectRatio, hp] at h
  | parsed streams =>
    cases streams with
    | nil => simp [getVideoAspectRatio, hp] at h
    | cons s rest =>
      rw [getVideoAspectRatio_parsed _ _ s rest hp] at h
      injection h with h1 h2
      exact ⟨s, rest, rfl, h1.symm⟩

/-- Every call of a run, but for the creation and the removal of the temporary
file, is a call of the body after staging, whose reply is the reply of the
run. -/
theorem handlerUploadVideo_calls (env : Env) (w : World) (c : Call)
    (h : c ∈ (handlerUploadVideo env w).calls) (h1 : c ≠ .createTemp)
    (h2 : ∀ p, c ≠ .osRemove p) :
    ∃ videoData name w1, env.createTemp = .ok name ∧
      c ∈ (uploadStaged env videoData "video/mp4" name w1).calls ∧
      (handlerUploadVideo env w).reply
        = (uploadStaged env videoData "video/mp4" name w1).reply := by
  unfold handlerUploadVideo at h ⊢
  split at h
  · simp at h
  split at h
  · simp at h
  split at h
  · simp at h
  split at h
  · simp at h
  split at h
  · simp at h
  split at h
  · simp at h
  split at h
  · simp at h
  rename_i mediaType _ hm
  have hm' : mediaType = "video/mp4" := by simpa using hm
  subst hm'
  split at h
  · simp at h; exact absurd h h1
  rename_i hname
  simp only [List.cons_append, List.mem_cons, List.mem_append, List.not_mem_nil,
    or_false] at h
  rcases h with h | h | h
  · exact absurd h h1
  · refine ⟨_, _, _, hname, h, ?_⟩
    simp_all
  · exact absurd h (h2 _)

theorem videoLayoutOf_label (l : Layout) : videoLayoutOf l.label = l.dir := by
  cases l <;> rfl

theorem dbVideoToSignedVideo_fail (presign : Presigner) (video : Video) (c : PresignCall)
    (e : String) (h : c ∈ (dbVideoToSignedVideo presign video).2) (he : presign c = .error e) :
    signedReply (dbVideoToSignedVideo presign video).1
      = respondWithError 500 "cannot assign video url" := by
  cases hv : video.VideoURL with
  | none => simp [dbVideoToSignedVideo, hv] at h
  | some d =>
    cases hs : stringsSplitComma d with
    | nil => simp [dbVideoToSignedVideo, hv, hs] at h
    | cons bucket tl =>
      cases tl with
      | nil => simp [dbVideoToSignedVideo, hv, hs] at h
      | cons key rest =>
        simp only [dbVideoToSignedVideo, hv, hs] at h ⊢
        have hc : c = ⟨bucket, key, timeHour⟩ := by
          split at h <;> simpa using h
        subst hc
        simp [generatePresignedURL, he, signedReply]

theorem dbVideoToSignedVideo_fail_of_eq (presign : Presigner) (video : Video)
    (out : Outcome Video) (signing : List PresignCall) (c : PresignCall) (e : String)
    (hd : dbVideoToSignedVideo presign video = (out, signing)) (h : c ∈ signing)
    (he : presign c = .error e) :
    signedReply out = respondWithError 500 "cannot assign video url" := by
  have := dbVideoToSignedVideo_fail presign video c e (by rw [hd]; exact h) he
  rw [hd] at this
  exact this

theorem uploadStaged_presign_fail (env : Env) (videoData : Video) (mediaType name : String)
    (w1 : World) (c : PresignCall) (e : String)
    (h : Call.presign c ∈ (uploadStaged env videoData mediaType name w1).calls)
    (he : env.presign c = .error e) :
    (uploadStaged env videoData mediaType name w1).reply
      = respondWithError 500 "cannot assign video url" := by
  unfold uploadStaged at h ⊢
  split at h
  · simp at h
  split at h
  · simp at h
  · simp at h
  simp only at h ⊢
  split at h
  · simp at h
  · simp at h
  split at h
  · simp at h
  split at h <;> rename_i hd
  all_goals
    simp at h
    have hr := dbVideoToSignedVideo_fail_of_eq _ _ _ _ c e hd h he
    simp [signedReply, respondWithError, respondWithJSON] at hr ⊢

theorem UpdateVideo_files (err : Option String) (video : Video) (w : World) :
    (UpdateVideo err video w).files = w.files := by
  cases err <;> rfl

theorem UpdateVideo_objects (err : Option String) (video : Video) (w : World) :
    (UpdateVideo err video w).objects = w.objects := by
  cases err <;> rfl

theorem PutObject_files (err : Option String) (bucket key : String) (w : World) :
    (PutObject err bucket key w).files = w.files := by
  cases err <;> rfl

/-- The run of a request that gets as far as the upload. -/
theorem handlerUploadVideo_upload (env : Env) (w : World) (videoData : Video) (name : String)
    (s : Stream) (hr : env.ReachesUpload w videoData name s) :
    handlerUploadVideo env w =
      ⟨signedReply (dbVideoToSignedVideo env.presign
          { videoData with VideoURL := some (encodeBucketKey env.s3Bucket
            (videoKeyOf (specLayout (specRatio s.Width s.Height)).dir env.randomBytes)) }).1,
        { (UpdateVideo env.updateVideoErr
            { videoData with VideoURL := some (encodeBucketKey env.s3Bucket
              (videoKeyOf (specLayout (specRatio s.Width s.Height)).dir env.randomBytes)) }
            (PutObject env.putObjectErr env.s3Bucket
              (videoKeyOf (specLayout (specRatio s.Width s.Height)).dir env.randomBytes)
              { w with files := insert (name ++ ".processing") (insert name w.files) })) with
          files := (insert (name ++ ".processing") (insert name w.files)).erase name },
        .createTemp ::
          ([.ffprobe name, .ffmpeg name (name ++ ".processing"),
            .osOpen (name ++ ".processing"),
            .putObject env.s3Bucket
              (videoKeyOf (specLayout (specRatio s.Width s.Height)).dir env.randomBytes)
              "video/mp4",
            .updateVideo { videoData with VideoURL := some (encodeBucketKey env.s3Bucket
              (videoKeyOf (specLayout (specRatio s.Width s.Height)).dir env.randomBytes)) }]
            ++ (dbVideoToSignedVideo env.presign
              { videoData with VideoURL := some (encodeBucketKey env.s3Bucket
                (videoKeyOf (specLayout (specRatio s.Width s.Height)).dir
                  env.randomBytes)) }).2.map .presign)
          ++ [.osRemove name]⟩ := by
  obtain ⟨⟨ct, hadm, hparse⟩, hname, hcopy, ⟨rest, hprobe⟩, hffmpeg, hopen⟩ := hr
  rw [handlerUploadVideo_admitted env w videoData ct hadm]
  simp only [hparse, hname, ne_eq, not_true_eq_false, if_false, uploadStaged, hcopy,
    getVideoAspectRatio_parsed _ _ s rest hprobe, videoLayoutOf_label,
    processVideoForFastStart, hffmpeg, hopen]
  cases hd : dbVideoToSignedVideo env.presign
      { videoData with VideoURL := some (encodeBucketKey env.s3Bucket
        (videoKeyOf (specLayout (specRatio s.Width s.Height)).dir env.randomBytes)) } with
  | mk out signing =>
    cases out with
    | panic m => simp [signedReply, UpdateVideo_files, PutObject_files]
    | ret v err =>
      cases err <;> simp [signedReply, UpdateVideo_files, PutObject_files]

/-! ## The storage key -/

theorem hextable_getD_mem (i : ℕ) (h : i < 16) : hextable.getD i '0' ∈ hextable := by
  interval_cases i <;> decide

theorem hexEncodeToString_length (src : List UInt8) :
    (hexEncodeToString src).length = 2 * src.length := by
  unfold hexEncodeToString
  rw [String.length_mk]
  induction src with
  | nil => rfl
  | cons v vs ih =>
    rw [List.flatMap_cons, List.length_append, ih]
    simp only [List.length_cons, List.length_nil]
    omega

theorem hexEncodeToString_mem (src : List UInt8) (c : Char)
    (h : c ∈ (hexEncodeToString src).data) : c ∈ hextable := by
  unfold hexEncodeToString at h
  simp only [List.mem_flatMap, List.mem_cons, List.mem_singleton, List.not_mem_nil,
    or_false] at h
  obtain ⟨v, -, hv⟩ := h
  have hlt : v.toNat < 256 := v.val.isLt
  rcases hv with rfl | rfl
  · exact hextable_getD_mem _ (by omega)
  · exact hextable_getD_mem _ (by omega)

theorem sampleEnv_reaches :
    sampleEnv.ReachesUpload sampleWorld ⟨1, 7, none, none⟩ "/tmp/tubely-upload.mp4123"
      ⟨1280, 720⟩ :=
  ⟨⟨"video/mp4", ⟨1, rfl, rfl, rfl, rfl⟩, rfl⟩, rfl, rfl, ⟨[], rfl⟩, rfl, rfl⟩

theorem hexDigitValue_hextable (i : ℕ) (h : i < 16) :
    hexDigitValue (hextable.getD i '0') = some i := by
  interval_cases i <;> rfl

theorem UInt8.ofNat_div_mod (v : UInt8) : UInt8.ofNat (16 * (v.toNat / 16) + v.toNat % 16) = v := by
  rw [Nat.div_add_mod]
  cases v with
  | mk val =>
    apply UInt8.eq_of_val_eq
    apply Fin.ext
    simp [UInt8.ofNat, UInt8.toNat, Fin.ofNat, Nat.mod_eq_of_lt val.isLt]

/-- Reading the hexadecimal rendering of some bytes gives the bytes back. -/
theorem hexDecode_hexEncodeToString (src : List UInt8) :
    hexDecode (hexEncodeToString src).data = some src := by
  unfold hexEncodeToString
  simp only
  induction src with
  | nil => rfl
  | cons v vs ih =>
    have hlt : v.toNat < 256 := v.val.isLt
    rw [List.flatMap_cons]
    simp only [List.cons_append, List.nil_append, List.append_eq, hexDecode,
      hexDigitValue_hextable _ (show v.toNat / 16 < 16 by omega),
      hexDigitValue_hextable _ (show v.toNat % 16 < 16 by omega), ih,
      UInt8.ofNat_div_mod]

theorem classify_1280_720 : classify 1280 720 = .ret "16:9" none := by
  rw [classify_eq, specLayout_1280_720]; rfl

theorem classify_720_1280 : classify 720 1280 = .ret "9:16" none := by
  rw [classify_eq, specLayout_720_1280]; rfl

theorem classify_640_640 : classify 640 640 = .ret "other" none := by
  rw [classify_eq, specLayout_640_640]; rfl

/-- C2: on every request that gets as far as the upload, with first stream `s`
and thirty-two random bytes, `handlerUploadVideo` uploads under the key
`layout/hex.mp4`, and under no other key.  Here `layout` is `landscape`,
`portrait` or `other` as the classifier answers "16:9", "9:16" or "other" for
`s`, and `hex` is the rendering of the bytes by the handler: sixty-four
characters, all among `0123456789abcdef`, which read as hexadecimal digits, two
per byte and the high one first, give the bytes back.  A 1280 x 720 stream
gives a key under `landscape/`, 720 x 1280 under `portrait/`, 640 x 640 under
`other/`. -/
theorem videoKey_format (env : Env) (w : World) (videoData : Video) (name : String)
    (s : Stream) (hr : env.ReachesUpload w videoData name s)
    (hlen : env.randomBytes.length = 32) :
    (∃ aspect, classify s.Width s.Height = .ret aspect none ∧
      (aspect = "16:9" ∨ aspect = "9:16" ∨ aspect = "other") ∧
      Call.putObject env.s3Bucket
          ((if aspect = "16:9" then "landscape"
            else if aspect = "9:16" then "portrait" else "other") ++ "/" ++
            (hexEncodeToString env.randomBytes ++ ".mp4")) "video/mp4"
        ∈ (handlerUploadVideo env w).calls ∧
      ∀ b k ct, Call.putObject b k ct ∈ (handlerUploadVideo env w).calls →
        k = (if aspect = "16:9" then "landscape"
            else if aspect = "9:16" then "portrait" else "other") ++ "/" ++
            (hexEncodeToString env.randomBytes ++ ".mp4")) ∧
    (hexEncodeToString env.randomBytes).length = 64 ∧
    (∀ c ∈ (hexEncodeToString env.randomBytes).data, c ∈ "0123456789abcdef".data) ∧
    hexDecode (hexEncodeToString env.randomBytes).data = some env.randomBytes ∧
    (s = ⟨1280, 720⟩ →
      Call.putObject env.s3Bucket
          ("landscape/" ++ (hexEncodeToString env.randomBytes ++ ".mp4")) "video/mp4"
        ∈ (handlerUploadVideo env w).calls) ∧
    (s = ⟨720, 1280⟩ →
      Call.putObject env.s3Bucket
          ("portrait/" ++ (hexEncodeToString env.randomBytes ++ ".mp4")) "video/mp4"
        ∈ (handlerUploadVideo env w).calls) ∧
    (s = ⟨640, 640⟩ →
      Call.putObject env.s3Bucket
          ("other/" ++ (hexEncodeToString env.randomBytes ++ ".mp4")) "video/mp4"
        ∈ (handlerUploadVideo env w).calls) := by
  have hput : ∀ l : Layout, specLayout (specRatio s.Width s.Height) = l →
      Call.putObject env.s3Bucket (l.dir ++ "/" ++
        (hexEncodeToString env.randomBytes ++ ".mp4")) "video/mp4"
        ∈ (handlerUploadVideo env w).calls := by
    intro l hl
    rw [handlerUploadVideo_upload env w videoData name s hr, hl]
    simp [videoKeyOf]
  have honly : ∀ l : Layout, specLayout (specRatio s.Width s.Height) = l →
      ∀ b k ct, Call.putObject b k ct ∈ (handlerUploadVideo env w).calls →
        k = l.dir ++ "/" ++ (hexEncodeToString env.randomBytes ++ ".mp4") := by
    intro l hl b k ct h
    rw [handlerUploadVideo_upload env w videoData name s hr, hl] at h
    simp only [List.cons_append, List.mem_cons, List.mem_append, List.mem_map,
      List.not_mem_nil, or_false, reduceCtorEq, false_or, Call.putObject.injEq,
      and_false, exists_false] at h
    rw [h.2.1]; rfl
  refine ⟨?_, ?_, fun c hc => hexEncodeToString_mem _ c hc,
    hexDecode_hexEncodeToString _, ?_, ?_, ?_⟩
  · refine ⟨(specLayout (specRatio s.Width s.Height)).label, classify_eq _ _, ?_, ?_, ?_⟩
    · cases specLayout (specRatio s.Width s.Height) <;> simp [Layout.label]
    · have h := hput _ rfl
      cases hl : specLayout (specRatio s.Width s.Height) <;> rw [hl] at h <;> exact h
    · have h := honly _ rfl
      cases hl : specLayout (specRatio s.Width s.Height) <;> rw [hl] at h <;> exact h
  · rw [hexEncodeToString_length, hlen]
  · rintro rfl
    exact hput _ specLayout_1280_720
  · rintro rfl
    exact hput _ specLayout_720_1280
  · rintro rfl
    exact hput _ specLayout_640_640

theorem sampleBytes_reaches :
    ({ sampleEnv with randomBytes := sampleBytes } : Env).ReachesUpload sampleWorld
      ⟨1, 7, none, none⟩ "/tmp/tubely-upload.mp4123" ⟨1280, 720⟩ :=
  ⟨⟨"video/mp4", ⟨1, rfl, rfl, rfl, rfl⟩, rfl⟩, rfl, rfl, ⟨[], rfl⟩, rfl, rfl⟩

/-- C2, witness: the sample request, whose first stream is 1280 x 720, with
thirty-two bytes of mixed values. -/
theorem videoKey_format_witness :
    Call.putObject "tubely"
        "landscape/00010f101f207f809aa0a9afb0c3d4e5f0f6feff0a3c425768798b9cadbecfd0.mp4"
        "video/mp4"
      ∈ (handlerUploadVideo { sampleEnv with randomBytes := sampleBytes } sampleWorld).calls ∧
    hexDecode "00010f101f207f809aa0a9afb0c3d4e5f0f6feff0a3c425768798b9cadbecfd0".data
      = some sampleBytes :=
  ⟨((videoKey_format { sampleEnv with randomBytes := sampleBytes } sampleWorld
      ⟨1, 7, none, none⟩ "/tmp/tubely-upload.mp4123" ⟨1280, 720⟩ sampleBytes_reaches rfl).2.2.2.2.1
      rfl),
    (videoKey_format { sampleEnv with randomBytes := sampleBytes } sampleWorld
      ⟨1, 7, none, none⟩ "/tmp/tubely-upload.mp4123" ⟨1280, 720⟩ sampleBytes_reaches
      rfl).2.2.2.1⟩

/-! ## The ownership guard -/

/-- C5, counterexample: user 8 asks to upload to video 1 of user 7; the reply
is 401, not 403. -/
theorem not_owner_counterexample :
    (handlerUploadVideo { sampleEnv with getUserID := .ok 8 } sampleWorld).reply
      = .error 401 "this is not your video" ∧
    (handlerUploadVideo { sampleEnv with getUserID := .ok 8 } sampleWorld).reply.status
      ≠ some 403 := by
  constructor
  · rfl
  · decide

/-- C5, amended: when the identifier parses, the credential yields a user and
the video exists with another owner, `handlerUploadVideo` answers 401 with the
message "this is not your video", makes no call to a collaborator and leaves
the metadata store, the object store and the filesystem as they were. -/
theorem not_owner_unauthorized (env : Env) (w : World) (videoID userID : UUID)
    (videoData : Video) (h1 : env.extractVideoID = .ok videoID)
    (h2 : env.getUserID = .ok userID) (h3 : GetVideo w videoID = some videoData)
    (h4 : videoData.UserID ≠ userID) :
    handlerUploadVideo env w = ⟨.error 401 "this is not your video", w, []⟩ := by
  simp [handlerUploadVideo, h1, h2, h3, h4, respondWithError]

/-- C5, witness: user 8 and video 1 of user 7. -/
theorem not_owner_unauthorized_witness :
    handlerUploadVideo { sampleEnv with getUserID := .ok 8 } sampleWorld
      = ⟨.error 401 "this is not your video", sampleWorld, []⟩ :=
  not_owner_unauthorized { sampleEnv with getUserID := .ok 8 } sampleWorld 1 8
    ⟨1, 7, none, none⟩ rfl rfl rfl (by decide)

/-! ## The content type -/

theorem handlerUploadVideo_createTemp (env : Env) (w : World) (videoData : Video)
    (contentType : String) (h : env.Admits w videoData contentType)
    (hp : env.parseMediaType = .ok "video/mp4") :
    Call.createTemp ∈ (handlerUploadVideo env w).calls := by
  rw [handlerUploadVideo_admitted env w videoData contentType h, hp]
  cases hc : env.createTemp <;> simp

/-- C7, counterexample: the declared type `VIDEO/MP4` is not the text
`video/mp4`; `mime.ParseMediaType` lower-cases it to `video/mp4`, and the
handler goes on to create the temporary file.  An empty declared type, which
the parser rejects, is answered with 500, not 400. -/
theorem contentType_counterexample :
    "VIDEO/MP4" ≠ "video/mp4" ∧
    Call.createTemp ∈
      (handlerUploadVideo
        { sampleEnv with formFile := some "VIDEO/MP4", parseMediaType := .ok "video/mp4" }
        sampleWorld).calls ∧
    handlerUploadVideo
        { sampleEnv with formFile := some "", parseMediaType := .error "mime: no media type" }
        sampleWorld
      = ⟨.error 500 "could not parse media", sampleWorld, []⟩ := by
  refine ⟨by decide, ?_, ?_⟩
  · exact handlerUploadVideo_createTemp _ sampleWorld ⟨1, 7, none, none⟩ "VIDEO/MP4"
      ⟨1, rfl, rfl, rfl, rfl⟩ rfl
  · rw [handlerUploadVideo_admitted _ sampleWorld ⟨1, 7, none, none⟩ ""
      ⟨1, rfl, rfl, rfl, rfl⟩]
    rfl

/-- C7, amended: for an admitted request the handler goes on to staging exactly
when `mime.ParseMediaType` accepts the declared content type and returns
`video/mp4`; a value the parser rejects is answered with 500 and a value of
another media type with 400, in both cases without a call to a collaborator and
with the world, temporary files included, unchanged. -/
theorem contentType_gate (env : Env) (w : World) (videoData : Video) (contentType : String)
    (h : env.Admits w videoData contentType) :
    (Call.createTemp ∈ (handlerUploadVideo env w).calls ↔
      env.parseMediaType = .ok "video/mp4") ∧
    (∀ e, env.parseMediaType = .error e →
      handlerUploadVideo env w = ⟨.error 500 "could not parse media", w, []⟩) ∧
    (∀ mediaType, env.parseMediaType = .ok mediaType → mediaType ≠ "video/mp4" →
      handlerUploadVideo env w = ⟨.error 400 "invalid format", w, []⟩) := by
  rw [handlerUploadVideo_admitted env w videoData contentType h]
  cases hp : env.parseMediaType with
  | error e => simp [respondWithError]
  | ok mediaType =>
    by_cases hm : mediaType = "video/mp4"
    · subst hm
      cases hc : env.createTemp <;> simp
    · simp [hm, respondWithError]

/-- C7, witness: the sample request with the declared type `VIDEO/MP4`, which
the parser returns as `video/mp4`. -/
theorem contentType_gate_witness :
    Call.createTemp ∈
      (handlerUploadVideo
        { sampleEnv with formFile := some "VIDEO/MP4", parseMediaType := .ok "video/mp4" }
        sampleWorld).calls :=
  (contentType_gate
    { sampleEnv with formFile := some "VIDEO/MP4", parseMediaType := .ok "video/mp4" } sampleWorld
    ⟨1, 7, none, none⟩ "VIDEO/MP4" ⟨1, rfl, rfl, rfl, rfl⟩).1.mpr rfl

/-! ## A failing upload -/

/-- C6, the code at a failing upload: on a request that gets as far as the
upload and whose `PutObject` fails, `handlerUploadVideo` still calls
`UpdateVideo` with the record that carries the location descriptor, stores no
object, and replies as `dbVideoToSignedVideo` decides, not with 500 for the
failed upload. -/
theorem putObject_error_ignored (env : Env) (w : World) (videoData : Video) (name e : String)
    (s : Stream) (hr : env.ReachesUpload w videoData name s)
    (he : env.putObjectErr = some e) :
    Call.updateVideo { videoData with VideoURL := some (encodeBucketKey env.s3Bucket
        (videoKeyOf (specLayout (specRatio s.Width s.Height)).dir env.randomBytes)) }
      ∈ (handlerUploadVideo env w).calls ∧
    (handlerUploadVideo env w).world.objects = w.objects ∧
    (handlerUploadVideo env w).world.videos
      = (UpdateVideo env.updateVideoErr
          { videoData with VideoURL := some (encodeBucketKey env.s3Bucket
            (videoKeyOf (specLayout (specRatio s.Width s.Height)).dir env.randomBytes)) }
          w).videos ∧
    (handlerUploadVideo env w).reply
      = signedReply (dbVideoToSignedVideo env.presign
          { videoData with VideoURL := some (encodeBucketKey env.s3Bucket
            (videoKeyOf (specLayout (specRatio s.Width s.Height)).dir env.randomBytes)) }).1 := by
  rw [handlerUploadVideo_upload env w videoData name s hr]
  refine ⟨by simp, ?_, ?_, rfl⟩
  · simp [he, PutObject, UpdateVideo_objects]
  · cases hu : env.updateVideoErr <;> simp [he, PutObject, UpdateVideo]

theorem sampleEnv_putObject_fails_reaches :
    ({ sampleEnv with putObjectErr := some "RequestTimeout" } : Env).ReachesUpload sampleWorld
      ⟨1, 7, none, none⟩ "/tmp/tubely-upload.mp4123" ⟨1280, 720⟩ :=
  ⟨⟨"video/mp4", ⟨1, rfl, rfl, rfl, rfl⟩, rfl⟩, rfl, rfl, ⟨[], rfl⟩, rfl, rfl⟩

theorem sample_landscape_key :
    encodeBucketKey "tubely" (videoKeyOf (specLayout (specRatio 1280 720)).dir
        (List.replicate 32 0))
      = "tubely,landscape/" ++ String.mk (List.replicate 64 '0') ++ ".mp4" := by
  rw [specLayout_1280_720]
  rfl

/-- C6, witness: the sample request with a `PutObject` that fails.  The record
is stored with the descriptor, no object exists, and the reply is 200. -/
theorem putObject_error_ignored_witness :
    (handlerUploadVideo { sampleEnv with putObjectErr := some "RequestTimeout" }
        sampleWorld).world.objects = [] ∧
    (handlerUploadVideo { sampleEnv with putObjectErr := some "RequestTimeout" }
        sampleWorld).world.videos
      = [⟨1, 7, none,
          some ("tubely,landscape/" ++ String.mk (List.replicate 64 '0') ++ ".mp4")⟩] ∧
    (handlerUploadVideo { sampleEnv with putObjectErr := some "RequestTimeout" }
        sampleWorld).reply
      = .json 200 ⟨1, 7, none, some "https://signed.example/get"⟩ := by
  have h := putObject_error_ignored { sampleEnv with putObjectErr := some "RequestTimeout" }
    sampleWorld ⟨1, 7, none, none⟩ "/tmp/tubely-upload.mp4123" "RequestTimeout" ⟨1280, 720⟩
    sampleEnv_putObject_fails_reaches rfl
  obtain ⟨-, h1, h2, h3⟩ := h
  refine ⟨h1, ?_, ?_⟩
  · rw [h2]
    show (UpdateVideo none ⟨1, 7, none, some (encodeBucketKey "tubely"
      (videoKeyOf (specLayout (specRatio 1280 720)).dir (List.replicate 32 0)))⟩
      sampleWorld).videos = _
    rw [sample_landscape_key]
    rfl
  · rw [h3]
    show signedReply (dbVideoToSignedVideo (fun _ => .ok "https://signed.example/get")
      ⟨1, 7, none, some (encodeBucketKey "tubely"
      (videoKeyOf (specLayout (specRatio 1280 720)).dir (List.replicate 32 0)))⟩).1 = _
    rw [sample_landscape_key]
    rfl

/-! ## Temporary files -/

theorem ne_append_processing (name : String) : name ≠ name ++ ".processing" := by
  intro h
  have := congrArg String.length h
  simp [String.length_append] at this
  revert this
  decide

/-- C8, the code on the path to the upload: when the temporary file `name` is
new, the run leaves the files that were there and, with them, the remux output
`name ++ ".processing"`; the raw upload is removed, the remux output is not.
So the set of files after the run differs from the set before as soon as the
remux output was not there before. -/
theorem processing_file_left (env : Env) (w : World) (videoData : Video) (name : String)
    (s : Stream) (hr : env.ReachesUpload w videoData name s) (hfresh : name ∉ w.files) :
    (handlerUploadVideo env w).world.files = insert (name ++ ".processing") w.files ∧
    (name ++ ".processing" ∉ w.files → (handlerUploadVideo env w).world.files ≠ w.files) := by
  have hfiles : (handlerUploadVideo env w).world.files
      = insert (name ++ ".processing") w.files := by
    rw [handlerUploadVideo_upload env w videoData name s hr]
    simp only
    rw [Finset.erase_insert_of_ne (ne_append_processing name).symm,
      Finset.erase_insert hfresh]
  refine ⟨hfiles, fun hout heq => ?_⟩
  rw [hfiles] at heq
  exact hout (heq ▸ Finset.mem_insert_self _ _)

/-- C8, witness: the sample request starts without any file and ends with the
remux output on disk. -/
theorem processing_file_left_witness :
    (handlerUploadVideo sampleEnv sampleWorld).world.files
      = {"/tmp/tubely-upload.mp4123.processing"} ∧
    (handlerUploadVideo sampleEnv sampleWorld).world.files ≠ sampleWorld.files := by
  have h := processing_file_left sampleEnv sampleWorld ⟨1, 7, none, none⟩
    "/tmp/tubely-upload.mp4123" ⟨1280, 720⟩ sampleEnv_reaches (Finset.not_mem_empty _)
  exact ⟨h.1, h.2 (Finset.not_mem_empty _)⟩

/-! ## The signed record -/

theorem dbVideoToSignedVideo_ok_inv (presign : Presigner) (video v : Video)
    (signing : List PresignCall)
    (h : dbVideoToSignedVideo presign video = (.ret v none, signing)) :
    ∃ c url, signing = [c] ∧ c.expire = timeHour ∧ presign c = .ok url ∧
      v = { video with VideoURL := some url } := by
  cases hv : video.VideoURL with
  | none => simp [dbVideoToSignedVideo, hv] at h
  | some d =>
    cases hs : stringsSplitComma d with
    | nil => simp [dbVideoToSignedVideo, hv, hs] at h
    | cons bucket tl =>
      cases tl with
      | nil => simp [dbVideoToSignedVideo, hv, hs] at h
      | cons key rest =>
        simp only [dbVideoToSignedVideo, hv, hs, generatePresignedURL] at h
        cases hp : presign ⟨bucket, key, timeHour⟩ with
        | error e => simp [hp] at h
        | ok url =>
          simp only [hp, Prod.mk.injEq, Outcome.ret.injEq, and_true] at h
          exact ⟨⟨bucket, key, timeHour⟩, url, h.2.symm, rfl, hp, h.1.symm⟩

theorem uploadStaged_json_inv (env : Env) (videoData : Video) (mediaType name : String)
    (w1 : World) (code : ℕ) (v : Video)
    (h : (uploadStaged env videoData mediaType name w1).reply = .json code v) :
    ∃ c url, Call.presign c ∈ (uploadStaged env videoData mediaType name w1).calls ∧
      c.expire = timeHour ∧ env.presign c = .ok url ∧ v.VideoURL = some url ∧ code = 200 := by
  unfold uploadStaged at h ⊢
  split at h
  · simp [respondWithError] at h
  split at h
  · simp at h
  · simp [respondWithError] at h
  simp only at h ⊢
  split at h
  · simp at h
  · simp [respondWithError] at h
  split at h
  · simp [respondWithError] at h
  split at h <;> rename_i hd
  · simp at h
  · simp [respondWithError] at h
  · simp only [respondWithJSON, Reply.json.injEq] at h
    obtain ⟨hcode, hv⟩ := h
    subst hv
    obtain ⟨c, url, hsign, hexp, hp, hrec⟩ := dbVideoToSignedVideo_ok_inv _ _ _ _ hd
    refine ⟨c, url, ?_, hexp, hp, ?_, hcode.symm⟩
    · simp [hsign]
    · rw [hrec]

theorem handlerUploadVideo_json_inv (env : Env) (w : World) (code : ℕ) (v : Video)
    (h : (handlerUploadVideo env w).reply = .json code v) :
    ∃ c url, Call.presign c ∈ (handlerUploadVideo env w).calls ∧
      c.expire = timeHour ∧ env.presign c = .ok url ∧ v.VideoURL = some url ∧ code = 200 := by
  unfold handlerUploadVideo at h ⊢
  split at h
  · simp [respondWithError] at h
  split at h
  · simp [respondWithError] at h
  split at h
  · simp [respondWithError] at h
  split at h
  · simp [respondWithError] at h
  split at h
  · simp at h
  split at h
  · simp [respondWithError] at h
  split at h
  · simp [respondWithError] at h
  split at h
  · simp [respondWithError] at h
  simp only at h
  obtain ⟨c, url, hmem, hrest⟩ := uploadStaged_json_inv _ _ _ _ _ code v h
  refine ⟨c, url, ?_, hrest⟩
  simp_all

/-- C10, counterexample: the raw descriptor does appear in a record that
`dbVideoToSignedVideo` returns.  When the signing service fails, the function
returns the input record as it is, descriptor included, next to the error; and
when the service answers with the text of the descriptor, that text is the
`VideoURL` of the result. -/
theorem signed_record_counterexample :
    dbVideoToSignedVideo (fun _ => .error "no credentials")
        ⟨1, 7, none, some "tubely,other/00.mp4"⟩
      = (.ret ⟨1, 7, none, some "tubely,other/00.mp4"⟩
          (some "cannot generate presignedURL: cannot process request: no credentials"),
        [⟨"tubely", "other/00.mp4", timeHour⟩]) ∧
    dbVideoToSignedVideo (fun c => .ok (c.bucket ++ "," ++ c.key))
        ⟨1, 7, none, some "tubely,other/00.mp4"⟩
      = (.ret ⟨1, 7, none, some "tubely,other/00.mp4"⟩ none,
        [⟨"tubely", "other/00.mp4", timeHour⟩]) := by
  constructor <;> decide

/-- C10, amended: for a record whose descriptor is `b ++ "," ++ k` with `b` and
`k` free of commas, `dbVideoToSignedVideo` asks the signing service once, for
bucket `b`, key `k` and one hour.  If the service returns a URL, the result is
the input record with `VideoURL` replaced by exactly that URL, every other
field unchanged, and no error; if the service fails, the result is the input
record unchanged next to an error.  In a run of `handlerUploadVideo` a signing
request that fails makes the reply a 500 that carries no record, and a record
is only ever sent with status 200 and with a `VideoURL` that the signing
service returned, in this run, for a lifetime of one hour. -/
theorem signed_record (presign : Presigner) (video : Video) (b k : String)
    (hb : ',' ∉ b.data) (hk : ',' ∉ k.data)
    (hv : video.VideoURL = some (encodeBucketKey b k)) :
    (dbVideoToSignedVideo presign video).2 = [⟨b, k, 3600 * 1000000000⟩] ∧
    (∀ url, presign ⟨b, k, timeHour⟩ = .ok url →
      (dbVideoToSignedVideo presign video).1
        = .ret ⟨video.ID, video.UserID, video.ThumbnailURL, some url⟩ none) ∧
    (∀ e, presign ⟨b, k, timeHour⟩ = .error e →
      ∃ msg, (dbVideoToSignedVideo presign video).1 = .ret video (some msg)) ∧
    (∀ (env : Env) (w : World) (c : PresignCall) (e : String),
      Call.presign c ∈ (handlerUploadVideo env w).calls → env.presign c = .error e →
      (handlerUploadVideo env w).reply = .error 500 "cannot assign video url") ∧
    (∀ (env : Env) (w : World) (code : ℕ) (v : Video),
      (handlerUploadVideo env w).reply = .json code v →
      ∃ c url, Call.presign c ∈ (handlerUploadVideo env w).calls ∧
        c.expire = 3600 * 1000000000 ∧ env.presign c = .ok url ∧
        v.VideoURL = some url ∧ code = 200) := by
  have hs := stringsSplitComma_encode b k hb hk
  refine ⟨?_, ?_, ?_, ?_, ?_⟩
  · simp only [dbVideoToSignedVideo, hv, hs, generatePresignedURL]
    cases presign ⟨b, k, timeHour⟩ <;> rfl
  · intro url hu
    simp only [dbVideoToSignedVideo, hv, hs, generatePresignedURL, hu]
  · intro e he
    simp only [dbVideoToSignedVideo, hv, hs, generatePresignedURL, he]
    exact ⟨_, rfl⟩
  · intro env w c e hc he
    obtain ⟨videoData, name, w1, -, hmem, hreply⟩ :=
      handlerUploadVideo_calls env w _ hc (by simp) (by simp)
    rw [hreply]
    exact uploadStaged_presign_fail env videoData "video/mp4" name w1 c e hmem he
  · intro env w code v h
    exact handlerUploadVideo_json_inv env w code v h

/-- C10, witness: the record of video 1 with the descriptor
`tubely,other/00.mp4`. -/
theorem signed_record_witness :
    (dbVideoToSignedVideo (fun _ => .ok "https://signed.example/get")
        ⟨1, 7, none, some (encodeBucketKey "tubely" "other/00.mp4")⟩).1
      = .ret ⟨1, 7, none, some "https://signed.example/get"⟩ none :=
  (signed_record (fun _ => .ok "https://signed.example/get")
    ⟨1, 7, none, some (encodeBucketKey "tubely" "other/00.mp4")⟩ "tubely" "other/00.mp4"
    (by decide) (by decide) rfl).2.1 "https://signed.example/get" rfl

/-! ## The edge of a band

The comparisons are made on rounded values, so a frame whose exact ratio lies
on the edge of a band can fall on either side of it. -/

theorem roundHalfEven_eq_of_abs_lt (x : ℚ) (n : ℤ) (h : |x - n| < 1 / 2) :
    roundHalfEven x = n := by
  have h' := abs_lt.mp h
  unfold roundHalfEven
  simp only
  rcases le_or_lt (n : ℚ) x with hx | hx
  · have hf : ⌊x⌋ = n := by
      rw [Int.floor_eq_iff]
      constructor <;> linarith
    rw [hf, if_pos (by linarith)]
  · have hf : ⌊x⌋ = n - 1 := by
      rw [Int.floor_eq_iff]
      push_cast
      constructor <;> linarith
    rw [hf]
    push_cast
    rw [if_neg (by linarith), if_pos (by linarith)]
    ring

theorem binade_eq (q : ℚ) (e : ℤ) (he : -1022 ≤ e) (h1 : 2 ^ e ≤ |q|)
    (h2 : |q| < 2 ^ (e + 1)) : binade q = e := by
  have hpos : 0 < |q| := lt_of_lt_of_le (two_zpow_pos e) h1
  have l1 : Int.log 2 |q| < e + 1 := by
    rw [← Int.lt_zpow_iff_log_lt (by norm_num) hpos, Nat.cast_ofNat]
    exact h2
  have l2 : e ≤ Int.log 2 |q| := by
    rw [← Int.zpow_le_iff_le_log (by norm_num) hpos, Nat.cast_ofNat]
    exact h1
  unfold binade
  rw [max_eq_left (by omega)]
  omega

/-- The value of a rounding, from the binade of the argument and the nearest
multiple of the unit in the last place. -/
theorem roundQ_eval (q : ℚ) (e n : ℤ) (he : -1022 ≤ e) (h1 : 2 ^ e ≤ |q|)
    (h2 : |q| < 2 ^ (e + 1)) (hn : |q / 2 ^ (e - 52) - n| < 1 / 2) :
    roundQ q = n * 2 ^ (e - 52) := by
  unfold roundQ
  rw [binade_eq q e he h1 h2, roundHalfEven_eq_of_abs_lt _ n hn]

theorem roundQ_53_80 : roundQ (53 / 80) = 5967269506265907 / 2 ^ 53 := by
  have h := roundQ_eval (53 / 80) (-1) 5967269506265907 (by norm_num)
    (by norm_num [abs_of_pos]) (by norm_num [abs_of_pos]) (by norm_num [abs_lt])
  rw [h]
  norm_num

theorem roundQ_1_10 : roundQ (1 / 10) = 7205759403792794 / 2 ^ 56 := by
  have h := roundQ_eval (1 / 10) (-4) 7205759403792794 (by norm_num)
    (by norm_num [abs_of_pos]) (by norm_num [abs_of_pos]) (by norm_num [abs_lt])
  rw [h]
  norm_num

/-- A 53 x 80 first stream is classified "9:16": the quotient rounds down and
the constant `0.1` rounds up. -/
theorem classify_53_80 : classify 53 80 = .ret "9:16" none := by
  rw [classify_eq, specRatio_small 53 80 (by norm_num) (by norm_num) (by norm_num)]
  have hq : ((53 : ℤ) : ℚ) / ((80 : ℤ) : ℚ) = 53 / 80 := by norm_num
  rw [hq]
  obtain ⟨r, hr, hr1, hr2⟩ : (F64.ofRat (53 / 80)).Within (1 / 2) 1 :=
    F64.ofRat_within rep_1_2 rep_1 (by norm_num) (by norm_num)
  have hrv : r = 5967269506265907 / 2 ^ 53 := by
    rw [F64.ofRat_eq_finite hr, roundQ_53_80]
  obtain ⟨t, ht, ht1, ht2⟩ := tolerance_within
  have htv : t = 7205759403792794 / 2 ^ 56 := by
    unfold tolerance at ht
    rw [F64.ofRat_eq_finite ht, roundQ_1_10]
  have hw : (F64.ofRat (53 / 80)).Within (1 / 2) 1 := ⟨r, hr, hr1, hr2⟩
  have h1 : (F64.sub (F64.ofRat (53 / 80)) (F64.ofRat (16 / 9))).Within (-(11 / 8)) (-(3 / 4)) :=
    F64.sub_within hw target16x9_within (representable_neg rep_11_8)
      (representable_neg rep_3_4) (by norm_num) (by norm_num)
  have h2 : F64.lt (F64.abs (F64.sub (F64.ofRat (53 / 80)) (F64.ofRat (16 / 9))))
      (F64.ofRat (1 / 10)) = false :=
    F64.not_lt_of_within (F64.abs_within_of_nonpos h1 (by norm_num)) tolerance_within
      (by norm_num)
  have hd : Representable (900719925474099 / 2 ^ 53) := by
    have h := representable_dyadic 900719925474099 (-53) (by norm_num) (by norm_num)
      (by norm_num)
    norm_num at h ⊢
    exact h
  have h3 : F64.sub (F64.ofRat (53 / 80)) (F64.ofRat (9 / 16))
      = F64.finite (900719925474099 / 2 ^ 53) := by
    rw [hr, F64.ofRat_representable rep_9_16, hrv]
    simp only [F64.sub]
    have : (5967269506265907 : ℚ) / 2 ^ 53 - 9 / 16 = 900719925474099 / 2 ^ 53 := by norm_num
    rw [this, F64.ofRat_representable hd]
  have h4 : F64.lt (F64.abs (F64.sub (F64.ofRat (53 / 80)) (F64.ofRat (9 / 16))))
      (F64.ofRat (1 / 10)) = true := by
    have ht' : F64.ofRat (1 / 10) = F64.finite t := ht
    rw [h3, ht', htv]
    simp only [F64.abs, F64.lt, decide_eq_true_eq]
    norm_num [abs_of_pos]
  unfold specLayout
  simp only [h2, h4]
  rfl

/-! ## The error of a rounding -/

theorem roundHalfEven_sub_le (x : ℚ) : |(roundHalfEven x : ℚ) - x| ≤ 1 / 2 := by
  have h1 := Int.floor_le x
  have h2 := Int.lt_floor_add_one x
  unfold roundHalfEven
  simp only
  rw [abs_le]
  split_ifs <;> push_cast <;> constructor <;> linarith

theorem two_zpow_binade_le_of_normal {x : ℚ} (hx : 2 ^ (-1022 : ℤ) ≤ |x|) :
    2 ^ binade x ≤ |x| := by
  have hpos : 0 < |x| := lt_of_lt_of_le (two_zpow_pos _) hx
  have hlog : (-1022 : ℤ) ≤ Int.log 2 |x| := by
    rw [← Int.zpow_le_iff_le_log (by norm_num) hpos, Nat.cast_ofNat]
    exact hx
  unfold binade
  rw [max_eq_left hlog]
  have := Int.zpow_log_le_self (R := ℚ) (b := 2) (by norm_num) hpos
  simpa using this

/-- The relative error of a rounding in the normal range is at most `2^-53`. -/
theorem roundQ_sub_le {x : ℚ} (hx : 2 ^ (-1022 : ℤ) ≤ |x|) :
    |roundQ x - x| ≤ |x| / 2 ^ 53 := by
  have hu := two_zpow_pos (binade x - 52)
  have hb := two_zpow_binade_le_of_normal hx
  rw [two_zpow_split] at hb
  have h1 := roundHalfEven_sub_le (x / 2 ^ (binade x - 52))
  have h2 : roundQ x - x
      = ((roundHalfEven (x / 2 ^ (binade x - 52)) : ℚ) - x / 2 ^ (binade x - 52))
        * 2 ^ (binade x - 52) := by
    unfold roundQ
    field_simp
  rw [h2, abs_mul, abs_of_pos hu]
  have h3 : |(roundHalfEven (x / 2 ^ (binade x - 52)) : ℚ) - x / 2 ^ (binade x - 52)|
      * 2 ^ (binade x - 52) ≤ 1 / 2 * 2 ^ (binade x - 52) :=
    mul_le_mul_of_nonneg_right h1 hu.le
  rw [le_div_iff₀ (by positivity)]
  nlinarith

theorem roundQ_intCast_sub_le (n : ℤ) : |roundQ n - n| ≤ |(n : ℚ)| / 2 ^ 53 := by
  rcases eq_or_ne n 0 with rfl | hn
  · simp [roundQ_zero]
  · apply roundQ_sub_le
    have h1 : (1 : ℚ) ≤ |(n : ℚ)| := by
      have : (1 : ℤ) ≤ |n| := Int.one_le_abs hn
      exact_mod_cast this
    have h2 : (2 : ℚ) ^ (-1022 : ℤ) ≤ 1 := by
      have := two_zpow_mono (show (-1022 : ℤ) ≤ 0 by norm_num)
      simpa using this
    linarith

/-- The quotient of two converted integers is within a relative `2^-51` of the
quotient of the integers. -/
theorem quotient_sub_le (w h : ℤ) (h0 : h ≠ 0) :
    roundQ h ≠ 0 ∧
    |roundQ w / roundQ h - (w : ℚ) / h| ≤ |(w : ℚ) / h| / 2 ^ 51 := by
  have hw := roundQ_intCast_sub_le w
  have hh := roundQ_intCast_sub_le h
  have hhpos : (0 : ℚ) < |(h : ℚ)| := abs_pos.mpr (by exact_mod_cast h0)
  have hH : |(h : ℚ)| * (1 - 1 / 2 ^ 53) ≤ |roundQ h| := by
    have := abs_sub_abs_le_abs_sub (h : ℚ) (roundQ h)
    rw [abs_sub_comm] at this
    have e : |(h : ℚ)| / 2 ^ 53 = |(h : ℚ)| * (1 / 2 ^ 53) := by ring
    linarith
  have hHpos : 0 < |roundQ h| := by
    have : (0 : ℚ) < |(h : ℚ)| * (1 - 1 / 2 ^ 53) := by
      apply mul_pos hhpos
      norm_num
    linarith
  have hH0 : roundQ h ≠ 0 := abs_pos.mp hHpos
  have hh0 : (h : ℚ) ≠ 0 := by exact_mod_cast h0
  refine ⟨hH0, ?_⟩
  have e1 : roundQ w / roundQ h - (w : ℚ) / h
      = ((roundQ w - w) * h - w * (roundQ h - h)) / (roundQ h * h) := by
    field_simp
    ring
  rw [e1, abs_div, abs_mul (roundQ h), abs_div]
  have hnum : |(roundQ w - w) * h - w * (roundQ h - h)|
      ≤ 2 * (|(w : ℚ)| * |(h : ℚ)| / 2 ^ 53) := by
    have t1 := abs_sub ((roundQ w - w) * h) (w * (roundQ h - h))
    rw [abs_mul, abs_mul] at t1
    have t2 : |roundQ w - w| * |(h : ℚ)| ≤ |(w : ℚ)| / 2 ^ 53 * |(h : ℚ)| :=
      mul_le_mul_of_nonneg_right hw (abs_nonneg _)
    have t3 : |(w : ℚ)| * |roundQ h - h| ≤ |(w : ℚ)| * (|(h : ℚ)| / 2 ^ 53) :=
      mul_le_mul_of_nonneg_left hh (abs_nonneg _)
    have e2 : |(w : ℚ)| / 2 ^ 53 * |(h : ℚ)| = |(w : ℚ)| * |(h : ℚ)| / 2 ^ 53 := by ring
    have e3 : |(w : ℚ)| * (|(h : ℚ)| / 2 ^ 53) = |(w : ℚ)| * |(h : ℚ)| / 2 ^ 53 := by ring
    linarith
  rw [div_le_iff₀ (mul_pos hHpos hhpos)]
  have hwn : (0 : ℚ) ≤ |(w : ℚ)| := abs_nonneg _
  have key : |(w : ℚ)| / |(h : ℚ)| / 2 ^ 51 * (|roundQ h| * |(h : ℚ)|)
      = |(w : ℚ)| * |roundQ h| / 2 ^ 51 := by
    field_simp
    ring
  rw [key]
  have t4 : |(w : ℚ)| * (|(h : ℚ)| * (1 - 1 / 2 ^ 53)) ≤ |(w : ℚ)| * |roundQ h| :=
    mul_le_mul_of_nonneg_left hH hwn
  have hwh : (0 : ℚ) ≤ |(w : ℚ)| * |(h : ℚ)| := mul_nonneg hwn hhpos.le
  have e4 : 2 * (|(w : ℚ)| * |(h : ℚ)| / 2 ^ 53)
      ≤ |(w : ℚ)| * (|(h : ℚ)| * (1 - 1 / 2 ^ 53)) / 2 ^ 51 := by
    have : |(w : ℚ)| * (|(h : ℚ)| * (1 - 1 / 2 ^ 53)) / 2 ^ 51
        - 2 * (|(w : ℚ)| * |(h : ℚ)| / 2 ^ 53)
        = |(w : ℚ)| * |(h : ℚ)| * ((1 - 1 / 2 ^ 53) / 2 ^ 51 - 2 / 2 ^ 53) := by ring
    have pos : (0 : ℚ) ≤ (1 - 1 / 2 ^ 53) / 2 ^ 51 - 2 / 2 ^ 53 := by norm_num
    have := mul_nonneg hwh pos
    linarith
  have t5 : |(w : ℚ)| * (|(h : ℚ)| * (1 - 1 / 2 ^ 53)) / 2 ^ 51
      ≤ |(w : ℚ)| * |roundQ h| / 2 ^ 51 :=
    div_le_div_of_nonneg_right t4 (by positivity)
  linarith

/-! ## The bands of the classifier in binary64 -/

theorem roundQ_16_9 : roundQ (16 / 9) = 8006399337547548 / 2 ^ 52 := by
  have h := roundQ_eval (16 / 9) 0 8006399337547548 (by norm_num)
    (by norm_num [abs_of_pos]) (by norm_num [abs_of_pos]) (by norm_num [abs_lt])
  rw [h]
  norm_num

theorem target16x9_eq : F64.ofRat (16 / 9) = F64.finite (8006399337547548 / 2 ^ 52) := by
  obtain ⟨c, hc, -, -⟩ := target16x9_within
  rw [hc, F64.ofRat_eq_finite hc, roundQ_16_9]

theorem tolerance_eq : F64.ofRat (1 / 10) = F64.finite (7205759403792794 / 2 ^ 56) := by
  obtain ⟨t, ht, -, -⟩ := tolerance_within
  unfold tolerance at ht
  rw [ht, F64.ofRat_eq_finite ht, roundQ_1_10]

theorem rep_pow_64 : Representable (2 ^ 64) := by
  have h := representable_dyadic 1 64 (by norm_num) (by norm_num) (by norm_num)
  norm_num at h ⊢
  exact h

theorem rep_pow_65 : Representable (2 ^ 65) := by
  have h := representable_dyadic 1 65 (by norm_num) (by norm_num) (by norm_num)
  norm_num at h ⊢
  exact h

theorem rep_a16 : Representable (7556039374810499 / 2 ^ 52) := by
  have h := representable_dyadic 7556039374810499 (-52) (by norm_num) (by norm_num)
    (by norm_num)
  norm_num at h ⊢
  exact h

theorem rep_a16_below : Representable (7556039374810498 / 2 ^ 52) := by
  have h := representable_dyadic 7556039374810498 (-52) (by norm_num) (by norm_num)
    (by norm_num)
  norm_num at h ⊢
  exact h

theorem rep_b16 : Representable (8456759300284597 / 2 ^ 52) := by
  have h := representable_dyadic 8456759300284597 (-52) (by norm_num) (by norm_num)
    (by norm_num)
  norm_num at h ⊢
  exact h

theorem rep_b16_above : Representable (8456759300284598 / 2 ^ 52) := by
  have h := representable_dyadic 8456759300284598 (-52) (by norm_num) (by norm_num)
    (by norm_num)
  norm_num at h ⊢
  exact h

theorem rep_u16 : Representable (450359962737049 / 2 ^ 52) := by
  have h := representable_dyadic 450359962737049 (-52) (by norm_num) (by norm_num)
    (by norm_num)
  norm_num at h ⊢
  exact h

theorem rep_u16_above : Representable (450359962737050 / 2 ^ 52) := by
  have h := representable_dyadic 450359962737050 (-52) (by norm_num) (by norm_num)
    (by norm_num)
  norm_num at h ⊢
  exact h

theorem rep_a9 : Representable (8331659310635418 / 2 ^ 54) := by
  have h := representable_dyadic 8331659310635418 (-54) (by norm_num) (by norm_num)
    (by norm_num)
  norm_num at h ⊢
  exact h

theorem rep_a9_below : Representable (8331659310635417 / 2 ^ 54) := by
  have h := representable_dyadic 8331659310635417 (-54) (by norm_num) (by norm_num)
    (by norm_num)
  norm_num at h ⊢
  exact h

theorem rep_b9 : Representable (5967269506265907 / 2 ^ 53) := by
  have h := representable_dyadic 5967269506265907 (-53) (by norm_num) (by norm_num)
    (by norm_num)
  norm_num at h ⊢
  exact h

theorem rep_b9_above : Representable (5967269506265908 / 2 ^ 53) := by
  have h := representable_dyadic 5967269506265908 (-53) (by norm_num) (by norm_num)
    (by norm_num)
  norm_num at h ⊢
  exact h

theorem rep_u9_low : Representable (1801439850948198 / 2 ^ 54) := by
  have h := representable_dyadic 1801439850948198 (-54) (by norm_num) (by norm_num)
    (by norm_num)
  norm_num at h ⊢
  exact h

theorem rep_u9_low_above : Representable (1801439850948199 / 2 ^ 54) := by
  have h := representable_dyadic 1801439850948199 (-54) (by norm_num) (by norm_num)
    (by norm_num)
  norm_num at h ⊢
  exact h

theorem rep_u9 : Representable (900719925474099 / 2 ^ 53) := by
  have h := representable_dyadic 900719925474099 (-53) (by norm_num) (by norm_num)
    (by norm_num)
  norm_num at h ⊢
  exact h

theorem rep_u9_above : Representable (900719925474100 / 2 ^ 53) := by
  have h := representable_dyadic 900719925474100 (-53) (by norm_num) (by norm_num)
    (by norm_num)
  norm_num at h ⊢
  exact h

theorem target16x9_exact :
    (F64.ofRat (16 / 9)).Within (8006399337547548 / 2 ^ 52) (8006399337547548 / 2 ^ 52) := by
  rw [target16x9_eq]; exact F64.within_self _

theorem tolerance_exact :
    (F64.ofRat (1 / 10)).Within (7205759403792794 / 2 ^ 56) (7205759403792794 / 2 ^ 56) := by
  rw [tolerance_eq]; exact F64.within_self _

/-- The first test of the classifier holds from the least to the greatest
binary64 value of the 16:9 band. -/
theorem landscapeTest_true {q : ℚ} (h1 : 7556039374810499 / 2 ^ 52 ≤ q)
    (h2 : q ≤ 8456759300284597 / 2 ^ 52) :
    F64.lt (F64.abs (F64.sub (F64.ofRat q) (F64.ofRat (16 / 9)))) (F64.ofRat (1 / 10))
      = true := by
  have hr := F64.ofRat_within rep_a16 rep_b16 h1 h2
  have hs := F64.sub_within hr target16x9_exact (representable_neg rep_u16) rep_u16
    (by norm_num) (by norm_num)
  exact F64.lt_of_within (F64.abs_within hs le_rfl le_rfl) tolerance_exact (by norm_num)

theorem landscapeTest_false_low {q : ℚ} (h1 : -2 ^ 64 ≤ q)
    (h2 : q ≤ 7556039374810498 / 2 ^ 52) :
    F64.lt (F64.abs (F64.sub (F64.ofRat q) (F64.ofRat (16 / 9)))) (F64.ofRat (1 / 10))
      = false := by
  have hr := F64.ofRat_within (representable_neg rep_pow_64) rep_a16_below h1 h2
  have hs := F64.sub_within hr target16x9_exact (representable_neg rep_pow_65)
    (representable_neg rep_u16_above) (by norm_num) (by norm_num)
  exact F64.not_lt_of_within (F64.abs_within_of_nonpos hs (by norm_num)) tolerance_exact
    (by norm_num)

theorem landscapeTest_false_high {q : ℚ} (h1 : 8456759300284598 / 2 ^ 52 ≤ q)
    (h2 : q ≤ 2 ^ 64) :
    F64.lt (F64.abs (F64.sub (F64.ofRat q) (F64.ofRat (16 / 9)))) (F64.ofRat (1 / 10))
      = false := by
  have hr := F64.ofRat_within rep_b16_above rep_pow_64 h1 h2
  have hs := F64.sub_within hr target16x9_exact rep_u16_above rep_pow_65
    (by norm_num) (by norm_num)
  exact F64.not_lt_of_within (F64.abs_within_of_nonneg hs (by norm_num)) tolerance_exact
    (by norm_num)

/-- The second test of the classifier holds from the least to the greatest
binary64 value of the 9:16 band. -/
theorem portraitTest_true {q : ℚ} (h1 : 8331659310635418 / 2 ^ 54 ≤ q)
    (h2 : q ≤ 5967269506265907 / 2 ^ 53) :
    F64.lt (F64.abs (F64.sub (F64.ofRat q) (F64.ofRat (9 / 16)))) (F64.ofRat (1 / 10))
      = true := by
  have hr := F64.ofRat_within rep_a9 rep_b9 h1 h2
  have hs := F64.sub_within hr target9x16_within (representable_neg rep_u9_low) rep_u9
    (by norm_num) (by norm_num)
  exact F64.lt_of_within (F64.abs_within hs (by norm_num) le_rfl) tolerance_exact
    (by norm_num)

theorem portraitTest_false_low {q : ℚ} (h1 : -2 ^ 64 ≤ q)
    (h2 : q ≤ 8331659310635417 / 2 ^ 54) :
    F64.lt (F64.abs (F64.sub (F64.ofRat q) (F64.ofRat (9 / 16)))) (F64.ofRat (1 / 10))
      = false := by
  have hr := F64.ofRat_within (representable_neg rep_pow_64) rep_a9_below h1 h2
  have hs := F64.sub_within hr target9x16_within (representable_neg rep_pow_65)
    (representable_neg rep_u9_low_above) (by norm_num) (by norm_num)
  exact F64.not_lt_of_within (F64.abs_within_of_nonpos hs (by norm_num)) tolerance_exact
    (by norm_num)

theorem portraitTest_false_high {q : ℚ} (h1 : 5967269506265908 / 2 ^ 53 ≤ q)
    (h2 : q ≤ 2 ^ 64) :
    F64.lt (F64.abs (F64.sub (F64.ofRat q) (F64.ofRat (9 / 16)))) (F64.ofRat (1 / 10))
      = false := by
  have hr := F64.ofRat_within rep_b9_above rep_pow_64 h1 h2
  have hs := F64.sub_within hr target9x16_within rep_u9_above rep_pow_65
    (by norm_num) (by norm_num)
  exact F64.not_lt_of_within (F64.abs_within_of_nonneg hs (by norm_num)) tolerance_exact
    (by norm_num)

/-! ## The classifier against the rule on exact numbers -/

theorem exactLayout_landscape {q : ℚ} (h1 : 151 / 90 < q) (h2 : q < 169 / 90) :
    exactLayout q = .landscape := by
  unfold exactLayout
  rw [if_pos (abs_lt.mpr ⟨by linarith, by linarith⟩)]

theorem exactLayout_portrait {q : ℚ} (h1 : 37 / 80 < q) (h2 : q < 53 / 80) :
    exactLayout q = .portrait := by
  unfold exactLayout
  rw [if_neg (fun h => by have := (abs_lt.mp h).1; linarith),
    if_pos (abs_lt.mpr ⟨by linarith, by linarith⟩)]

theorem exactLayout_other {q : ℚ}
    (h : q ≤ 37 / 80 ∨ (53 / 80 ≤ q ∧ q ≤ 151 / 90) ∨ 169 / 90 ≤ q) :
    exactLayout q = .other := by
  unfold exactLayout
  rw [if_neg, if_neg]
  · intro h'
    have := abs_lt.mp h'
    rcases h with h | h | h <;> linarith [h, this.1, this.2]
  · intro h'
    have := abs_lt.mp h'
    rcases h with h | h | h <;> linarith [h, this.1, this.2]

theorem specLayout_of_tests (r : F64) (a b : Bool)
    (ha : F64.lt (F64.abs (F64.sub r (F64.ofRat (16 / 9)))) (F64.ofRat (1 / 10)) = a)
    (hb : F64.lt (F64.abs (F64.sub r (F64.ofRat (9 / 16)))) (F64.ofRat (1 / 10)) = b) :
    specLayout r = if a = true then .landscape else if b = true then .portrait else .other := by
  unfold specLayout
  simp only [ha, hb]

theorem rep_pow_63 : Representable (2 ^ 63) := by
  have h := representable_dyadic 1 63 (by norm_num) (by norm_num) (by norm_num)
  norm_num at h ⊢
  exact h

theorem IsInt64.abs_cast_le {i : ℤ} (h : IsInt64 i) : |(i : ℚ)| ≤ 2 ^ 63 := by
  obtain ⟨h1, h2⟩ := h
  rw [abs_le]
  constructor
  · have : ((-2 ^ 63 : ℤ) : ℚ) ≤ (i : ℚ) := by exact_mod_cast h1
    simpa using this
  · have : (i : ℚ) ≤ ((2 ^ 63 : ℤ) : ℚ) := by exact_mod_cast h2.le
    simpa using this

theorem F64.ofInt_int64 {i : ℤ} (h : IsInt64 i) : F64.ofInt i = F64.finite (roundQ i) := by
  have hb := abs_le.mp h.abs_cast_le
  obtain ⟨r, hr, -, -⟩ := F64.ofRat_within (representable_neg rep_pow_63) rep_pow_63 hb.1 hb.2
  unfold F64.ofInt
  rw [hr, F64.ofRat_eq_finite hr]

theorem specRatio_int64 (w h : ℤ) (hw : IsInt64 w) (hh : IsInt64 h) (h0 : h ≠ 0) :
    specRatio w h = F64.ofRat (roundQ w / roundQ h) := by
  have hH := (quotient_sub_le w h h0).1
  simp [specRatio, F64.ofInt_int64 hw, F64.ofInt_int64 hh, F64.div, hH]

/-- Away from the edges of the bands the classifier decides as the rule on
exact numbers does. -/
theorem specLayout_eq_exactLayout (w h : ℤ) (hw : IsInt64 w) (hh : IsInt64 h) (h0 : h ≠ 0)
    (hclear : ClearOfEdges ((w : ℚ) / h)) :
    specLayout (specRatio w h) = exactLayout ((w : ℚ) / h) := by
  rw [specRatio_int64 w h hw hh h0]
  have herr := (quotient_sub_le w h h0).2
  have hq63 : |(w : ℚ) / h| ≤ 2 ^ 63 := by
    have hh1 : (1 : ℚ) ≤ |(h : ℚ)| := by
      have : (1 : ℤ) ≤ |h| := Int.one_le_abs h0
      exact_mod_cast this
    rw [abs_div, div_le_iff₀ (by linarith)]
    have := hw.abs_cast_le
    nlinarith [abs_nonneg (w : ℚ)]
  have e1 := hclear (151 / 90) (by simp [bandEdges])
  have e2 := hclear (169 / 90) (by simp [bandEdges])
  have e3 := hclear (37 / 80) (by simp [bandEdges])
  have e4 := hclear (53 / 80) (by simp [bandEdges])
  generalize (w : ℚ) / h = q at herr hq63 e1 e2 e3 e4 ⊢
  generalize roundQ w / roundQ h = Q at herr ⊢
  have hA := abs_le.mp herr
  have hq := abs_le.mp hq63
  rw [lt_abs] at e1 e2 e3 e4
  have hlow : -2 ^ 64 ≤ Q := by
    rcases le_or_lt 0 q with hs | hs
    · rw [abs_of_nonneg hs] at hA; linarith [hA.1]
    · rw [abs_of_neg hs] at hA; linarith [hA.1]
  have hhigh : Q ≤ 2 ^ 64 := by
    rcases le_or_lt 0 q with hs | hs
    · rw [abs_of_nonneg hs] at hA; linarith [hA.2]
    · rw [abs_of_neg hs] at hA; linarith [hA.2]
  rcases lt_or_le q (37 / 80) with r1 | r1
  · -- below the 9:16 band
    have hq1 : q < 37 / 80 - 1 / 2 ^ 49 := by rcases e3 with e | e <;> linarith
    have hQ : Q ≤ 8331659310635417 / 2 ^ 54 := by
      rcases le_or_lt 0 q with hs | hs
      · rw [abs_of_nonneg hs] at hA; linarith [hA.2]
      · rw [abs_of_neg hs] at hA; linarith [hA.2]
    rw [specLayout_of_tests _ false false
      (landscapeTest_false_low hlow (by linarith))
      (portraitTest_false_low hlow hQ), exactLayout_other (Or.inl r1.le)]
    rfl
  rcases lt_or_le q (53 / 80) with r2 | r2
  · -- inside the 9:16 band
    have hs : 0 ≤ q := by linarith
    rw [abs_of_nonneg hs] at hA
    have hq1 : 37 / 80 + 1 / 2 ^ 49 < q := by rcases e3 with e | e <;> linarith
    have hq2 : q < 53 / 80 - 1 / 2 ^ 49 := by rcases e4 with e | e <;> linarith
    rw [specLayout_of_tests _ false true
      (landscapeTest_false_low hlow (by linarith [hA.2]))
      (portraitTest_true (by linarith [hA.1]) (by linarith [hA.2])),
      exactLayout_portrait (by linarith) (by linarith)]
    rfl
  rcases lt_or_le q (151 / 90) with r3 | r3
  · -- between the bands
    have hs : 0 ≤ q := by linarith
    rw [abs_of_nonneg hs] at hA
    have hq1 : 53 / 80 + 1 / 2 ^ 49 < q := by rcases e4 with e | e <;> linarith
    have hq2 : q < 151 / 90 - 1 / 2 ^ 49 := by rcases e1 with e | e <;> linarith
    rw [specLayout_of_tests _ false false
      (landscapeTest_false_low hlow (by linarith [hA.2]))
      (portraitTest_false_high (by linarith [hA.1]) hhigh),
      exactLayout_other (Or.inr (Or.inl ⟨r2, r3.le⟩))]
    rfl
  rcases lt_or_le q (169 / 90) with r4 | r4
  · -- inside the 16:9 band
    have hs : 0 ≤ q := by linarith
    rw [abs_of_nonneg hs] at hA
    have hq1 : 151 / 90 + 1 / 2 ^ 49 < q := by rcases e1 with e | e <;> linarith
    have hq2 : q < 169 / 90 - 1 / 2 ^ 49 := by rcases e2 with e | e <;> linarith
    rw [specLayout_of_tests _ true false
      (landscapeTest_true (by linarith [hA.1]) (by linarith [hA.2]))
      (portraitTest_false_high (by linarith [hA.1]) hhigh),
      exactLayout_landscape (by linarith) (by linarith)]
    rfl
  · -- above the 16:9 band
    have hs : 0 ≤ q := by linarith
    rw [abs_of_nonneg hs] at hA
    have hq1 : 169 / 90 + 1 / 2 ^ 49 < q := by rcases e2 with e | e <;> linarith
    rw [specLayout_of_tests _ false false
      (landscapeTest_false_high (by linarith [hA.1]) hhigh)
      (portraitTest_false_high (by linarith [hA.1]) hhigh),
      exactLayout_other (Or.inr (Or.inr r4))]
    rfl

theorem specLayout_not_finite (r : F64) (h : ∀ q, r ≠ F64.finite q) :
    specLayout r = .other := by
  unfold specLayout
  simp only [target16x9_eq, tolerance_eq, F64.ofRat_representable rep_9_16]
  cases r with
  | finite q => exact absurd rfl (h q)
  | posInf => simp [F64.sub, F64.abs, F64.lt]
  | negInf => simp [F64.sub, F64.abs, F64.lt]
  | nan => simp [F64.sub, F64.abs, F64.lt]

/-- A height of zero makes the ratio an infinity or a NaN, which is in no
band. -/
theorem specLayout_zero_height (w : ℤ) : specLayout (specRatio w 0) = .other := by
  apply specLayout_not_finite
  intro q
  have h0 : F64.ofInt 0 = F64.finite 0 := by
    unfold F64.ofInt
    rw [Int.cast_zero, F64.ofRat_representable rep_zero]
  unfold specRatio
  rw [h0]
  cases F64.ofInt w with
  | finite a =>
    simp only [F64.div, if_true]
    split_ifs <;> simp
  | posInf => simp [F64.div]
  | negInf => simp [F64.div]
  | nan => simp [F64.div]

theorem roundQ_169_90 : roundQ (169 / 90) = 8456759300284598 / 2 ^ 52 := by
  have h := roundQ_eval (169 / 90) 0 8456759300284598 (by norm_num)
    (by norm_num [abs_of_pos]) (by norm_num [abs_of_pos]) (by norm_num [abs_lt])
  rw [h]
  norm_num

theorem specRatio_169_90 : specRatio 169 90 = F64.finite (8456759300284598 / 2 ^ 52) := by
  rw [specRatio_small 169 90 (by norm_num) (by norm_num) (by norm_num)]
  have hq : ((169 : ℤ) : ℚ) / ((90 : ℤ) : ℚ) = 169 / 90 := by norm_num
  rw [hq]
  obtain ⟨r, hr, -, -⟩ : (F64.ofRat (169 / 90)).Within 1 2 :=
    F64.ofRat_within rep_1 rep_2 (by norm_num) (by norm_num)
  rw [hr, F64.ofRat_eq_finite hr, roundQ_169_90]

theorem classify_169_90 : classify 169 90 = .ret "other" none := by
  rw [classify_eq, specRatio_small 169 90 (by norm_num) (by norm_num) (by norm_num)]
  have hq : ((169 : ℤ) : ℚ) / ((90 : ℤ) : ℚ) = 169 / 90 := by norm_num
  rw [hq, specLayout_of_tests _ false false
    (landscapeTest_false_high (by norm_num) (by norm_num))
    (portraitTest_false_high (by norm_num) (by norm_num))]
  rfl

/-- C1, counterexample: as a rule on numbers the claim fails at the edge of a
band.  A 53 x 80 stream has the ratio 53/80, at distance exactly 0.1 from 9/16,
so the rule gives "other"; the code returns "9:16".  A 169 x 90 stream has the
binary64 ratio 8456759300284598/2^52, at distance less than 0.1 from 16/9, so
the rule on that ratio gives landscape; the code returns "other". -/
theorem getVideoAspectRatio_edge_counterexample :
    classify 53 80 = .ret "9:16" none ∧ exactLayout (53 / 80) = .other ∧
    classify 169 90 = .ret "other" none ∧
    specRatio 169 90 = F64.finite (8456759300284598 / 2 ^ 52) ∧
    exactLayout (8456759300284598 / 2 ^ 52) = .landscape :=
  ⟨classify_53_80, exactLayout_other (Or.inr (Or.inl ⟨le_rfl, by norm_num⟩)),
    classify_169_90, specRatio_169_90,
    exactLayout_landscape (by norm_num) (by norm_num)⟩

/-- C1, amended: `getVideoAspectRatio`, as a function of the decoded probe
result, fails exactly when the stream list is empty.  On a non-empty list it
reads only the first stream; when its width and height are Go integers, the
height is not zero and the ratio `width / height` is farther than `2^-49` from
the four edges 151/90, 169/90, 37/80 and 53/80 of the bands, it returns the
label of the rule on exact numbers: "16:9" if `|ratio − 16/9| < 0.1`, else
"9:16" if `|ratio − 9/16| < 0.1`, else "other".  A height of zero gives
"other". -/
theorem getVideoAspectRatio_spec (streams : List Stream) (filePath : String) :
    ((getVideoAspectRatio (probeOf streams) filePath).failed = true ↔ streams = []) ∧
    (∀ (s : Stream) (rest : List Stream), IsInt64 s.Width → IsInt64 s.Height →
      s.Height ≠ 0 → ClearOfEdges ((s.Width : ℚ) / s.Height) →
      getVideoAspectRatio (probeOf (s :: rest)) filePath
        = .ret (exactLayout ((s.Width : ℚ) / s.Height)).label none) ∧
    (∀ (width : ℤ) (others : List Stream),
      getVideoAspectRatio (probeOf (⟨width, 0⟩ :: others)) filePath = .ret "other" none) ∧
    Layout.landscape.label = "16:9" ∧ Layout.portrait.label = "9:16" ∧
    Layout.other.label = "other" := by
  refine ⟨?_, ?_, ?_, rfl, rfl, rfl⟩
  · cases streams with
    | nil => simp [getVideoAspectRatio, probeOf, Outcome.failed]
    | cons s rest =>
      rw [getVideoAspectRatio_parsed _ _ s rest rfl]
      simp [Outcome.failed]
  · intro s rest hw hh h0 hclear
    rw [getVideoAspectRatio_parsed _ _ s rest rfl,
      specLayout_eq_exactLayout s.Width s.Height hw hh h0 hclear]
  · intro width others
    rw [getVideoAspectRatio_parsed _ _ ⟨width, 0⟩ others rfl, specLayout_zero_height]
    rfl

theorem clearOfEdges_16_9 : ClearOfEdges (((1280 : ℤ) : ℚ) / ((720 : ℤ) : ℚ)) := by
  intro e he
  simp only [bandEdges, List.mem_cons, List.mem_singleton, List.not_mem_nil, or_false] at he
  rcases he with rfl | rfl | rfl | rfl <;> norm_num [abs_of_pos, abs_of_neg]

/-- C1, witness: a list whose first stream is 1280 x 720, followed by a square
one, is classified "16:9", as the rule on exact numbers says for 1280/720. -/
theorem getVideoAspectRatio_spec_witness :
    getVideoAspectRatio (probeOf [⟨1280, 720⟩, ⟨640, 640⟩]) "upload.mp4"
      = .ret (exactLayout (((1280 : ℤ) : ℚ) / ((720 : ℤ) : ℚ))).label none ∧
    exactLayout (((1280 : ℤ) : ℚ) / ((720 : ℤ) : ℚ)) = .landscape :=
  ⟨(getVideoAspectRatio_spec [] "upload.mp4").2.1 ⟨1280, 720⟩ [⟨640, 640⟩]
      ⟨by norm_num, by norm_num⟩ ⟨by norm_num, by norm_num⟩ (by norm_num)
      clearOfEdges_16_9,
    exactLayout_landscape (by norm_num) (by norm_num)⟩

end Tubely
